import Mathlib

/-!
# Verification of `mklink_tool.py` (directory migration and symlink alignment)

This file shallowly embeds the copy-then-delete variant of the repository's
directory-migration-and-symlink tool (`src/mklink_tool.py`) and settles the
frozen claims about it.

## Modelling conventions

* The filesystem is a finite association list from absolute, normalized
  segment-list paths to nodes (`Node.file size`, `Node.dir`,
  `Node.symlink target`, `Node.other`).  The root `[]` is an implicit
  directory and holds no node of its own.
* Python path strings are abstracted into `RawPath` (an absolute-flag plus a
  segment list, possibly containing `"."`/`".."`/`""` segments).
  `normalize_path` models `os.path.abspath(os.path.normpath(...))` with the
  process working directory fixed at the filesystem root, so absolute and
  relative strings normalize to the same segment list while the *stored*
  raw form of a symlink target keeps its absolute/relative distinction
  (which matters for link-target resolution).
* The platform is POSIX (`platform.system() == "linux"`): the Windows-only
  branches of the source (`is_admin` gating, `mklink` subprocess, the
  `\\?\`/`\??\` prefix stripping) are resolved to their Linux side, exactly
  as the source executes them on Linux.
* Files held open by another process (the `WinError 32`-style per-item copy
  failures the source catches) are modelled by an ambient `locked` list of
  paths: copying a locked regular file raises, everything else succeeds.
* `stat`-like calls (`os.path.exists` / `isdir` / `isfile` / `getsize`)
  follow symlinks at the addressed node with a fuel bound of 40 links
  (POSIX `SYMLOOP_MAX`-style); exhausting the fuel behaves like `ELOOP`,
  for which `os.path.exists` returns `False`.  Nodes are addressed by their
  canonical paths, i.e. paths whose intermediate components are real
  directories; this matches the well-formedness invariant `WFfs` below.
-/

namespace Mklink

/-- A path segment (one component of a path). -/
abbrev Seg := String

/-- An absolute, normalized path: the list of its segments from the root. -/
abbrev Path := List Seg

/-- A raw path string as Python sees it: absolute flag plus raw segments
(which may still contain `"."`, `".."` or empty segments). -/
structure RawPath where
  isAbs : Bool
  segs : List Seg
deriving DecidableEq, Repr

/-- `os.path.normpath` segment processing for absolute paths: drops `"."`
and empty segments and lets `".."` pop (at the root, `".."` stays at the
root, as `normpath` does for absolute paths). -/
def normSegs (l : List Seg) : Path :=
  l.foldl (fun acc s =>
    if s = "" ∨ s = "." then acc
    else if s = ".." then acc.dropLast
    else acc ++ [s]) []

/-- `normalize_path` from the source (`os.path.abspath(os.path.normpath(p))`),
with the working directory fixed at the root. -/
def normalize_path (r : RawPath) : Path := normSegs r.segs

/-- `os.path.dirname` on a normalized path. -/
def dirname (p : Path) : Path := p.dropLast

/-- A filesystem node. -/
inductive Node where
  | file (size : Nat)
  | dir
  | symlink (target : RawPath)
  | other
deriving DecidableEq, Repr

/-- A filesystem: finite association list from canonical paths to nodes. -/
abbrev FS := List (Path × Node)

/-- Look up the node stored at a path (first match). -/
def lookupFS : FS → Path → Option Node
  | [], _ => none
  | e :: fs, p => if e.1 = p then some e.2 else lookupFS fs p

/-- Remove the entry at exactly `p` (models `os.remove`/`os.unlink`). -/
def eraseFS (fs : FS) (p : Path) : FS :=
  fs.filter (fun e => ¬ e.1 = p)

/-- Store node `n` at `p`, replacing any previous entry. -/
def insertFS (fs : FS) (p : Path) (n : Node) : FS :=
  (p, n) :: eraseFS fs p

/-- Boolean "is a list prefix of" test on paths. -/
def leadsTo : Path → Path → Bool
  | [], _ => true
  | _ :: _, [] => false
  | a :: as, b :: bs => a = b && leadsTo as bs

/-- Remove `p` and everything below it (models `shutil.rmtree`'s effect). -/
def eraseTreeFS (fs : FS) (p : Path) : FS :=
  fs.filter (fun e => ¬ leadsTo p e.1 = true)

/-- Resolve a raw symlink target stored at `linkPath` the way the kernel
does: a relative target is resolved against the link's parent directory. -/
def resolveTarget (linkPath : Path) (t : RawPath) : Path :=
  if t.isAbs then normSegs t.segs else normSegs (dirname linkPath ++ t.segs)

/-- Follow the chain of symlinks at a path, with fuel; `none` means the path
does not exist (or resolution exceeded the link-depth bound, which `os.path`
predicates report as non-existence). -/
def resolveFollow (fs : FS) : Nat → Path → Option (Path × Node)
  | 0, _ => none
  | fuel + 1, p =>
    if p = [] then some ([], Node.dir)
    else
      match lookupFS fs p with
      | none => none
      | some (Node.symlink t) => resolveFollow fs fuel (resolveTarget p t)
      | some n => some (p, n)

/-- Link-following depth bound (POSIX `SYMLOOP_MAX`-style). -/
def FUEL : Nat := 40

/-- `os.stat`-style resolution at the standard fuel. -/
def statF (fs : FS) (p : Path) : Option (Path × Node) := resolveFollow fs FUEL p

/-- `os.path.exists` (follows symlinks). -/
def existsF (fs : FS) (p : Path) : Bool := (statF fs p).isSome

/-- `os.path.isdir` (follows symlinks). -/
def isdirF (fs : FS) (p : Path) : Bool :=
  match statF fs p with
  | some (_, Node.dir) => true
  | _ => false

/-- `os.path.isfile` (follows symlinks). -/
def isfileF (fs : FS) (p : Path) : Bool :=
  match statF fs p with
  | some (_, Node.file _) => true
  | _ => false

/-- `os.path.islink` (does not follow). -/
def islinkF (fs : FS) (p : Path) : Bool :=
  match lookupFS fs p with
  | some (Node.symlink _) => true
  | _ => false

/-- `os.path.lexists`. -/
def lexistsF (fs : FS) (p : Path) : Bool :=
  p = [] || (lookupFS fs p).isSome

/-- `os.path.getsize`, following symlinks; sizing errors (broken links,
special files) contribute nothing, matching the source's `except OSError:
pass`. -/
def getsizeF (fs : FS) (p : Path) : Nat :=
  match statF fs p with
  | some (_, Node.file sz) => sz
  | _ => 0

/-- The names of the direct children of directory `d` present in the map
(models one `os.listdir` snapshot; order is first-occurrence order). -/
def childrenNames (fs : FS) (d : Path) : List Seg :=
  (fs.filterMap (fun e =>
    if dirname e.1 = d ∧ e.1 ≠ [] then e.1.getLast? else none)).dedup

/-- The nonempty prefixes of `p`, shortest first. -/
def prefixesUpTo (p : Path) : List Path :=
  (List.range p.length).map (fun i => p.take (i + 1))

/-- `os.makedirs`: create every missing directory on the chain to `p`;
an existing component that does not resolve to a directory is an error.
Returns the success flag together with the (possibly partially mutated)
filesystem, since Python's exception leaves earlier `mkdir`s in place. -/
def makedirsF (fs : FS) (p : Path) : Bool × FS :=
  (prefixesUpTo p).foldl
    (fun st q =>
      match st with
      | (false, fs') => (false, fs')
      | (true, fs') =>
        if isdirF fs' q then (true, fs')
        else
          match lookupFS fs' q with
          | none => (true, insertFS fs' q Node.dir)
          | some _ => (false, fs'))
    (true, fs)

/-- `create_parent_dirs` from the source: ensure the parent directory of a
path exists (`os.makedirs(parent, exist_ok=True)` when it is missing). -/
def create_parent_dirs (fs : FS) (p : Path) : Bool × FS :=
  if dirname p = [] then (true, fs)
  else if existsF fs (dirname p) then (true, fs)
  else makedirsF fs (dirname p)

/-- `remove_directory_recursive` from the source: `shutil.rmtree`, which
refuses symlinks and non-directories. -/
def remove_directory_recursive (fs : FS) (p : Path) : Bool × FS :=
  if islinkF fs p then (false, fs)
  else
    match lookupFS fs p with
    | some Node.dir => (true, eraseTreeFS fs p)
    | _ => (false, fs)

/-- Intermediate components strictly between `top` and `p` are all real
directories (the condition for `p` to be reachable by a plain tree walk
that does not descend through symlinks). -/
def chainDirs (fs : FS) (top p : Path) : Bool :=
  (List.range p.length).all (fun i =>
    decide (i ≤ top.length) || decide (lookupFS fs (p.take i) = some Node.dir))

/-- `p` lies strictly below `root` and is reachable from it through real
directories. -/
def reachUnder (fs : FS) (root p : Path) : Bool :=
  leadsTo root p && decide (root.length < p.length) && chainDirs fs root p

/-- Rebase a path below `root` to the corresponding path below `dst`. -/
def rebase (root dst p : Path) : Path := dst ++ p.drop root.length

/-- One copied entry of `shutil.copytree(..., symlinks=True,
dirs_exist_ok=True)`: directories are created, regular files are copied
unless locked (a locked file is recorded as an error and skipped, the walk
continuing), nested symlinks are recreated with the same raw target, and
special files fail to copy. -/
def copytreeEntry (locked : List Path) (root dst : Path)
    (st : FS × List Path) (e : Path × Node) : FS × List Path :=
  match e.2 with
  | Node.dir => (insertFS st.1 (rebase root dst e.1) Node.dir, st.2)
  | Node.file sz =>
      if e.1 ∈ locked then (st.1, st.2 ++ [e.1])
      else (insertFS st.1 (rebase root dst e.1) (Node.file sz), st.2)
  | Node.symlink t => (insertFS st.1 (rebase root dst e.1) (Node.symlink t), st.2)
  | Node.other => (st.1, st.2 ++ [e.1])

/-- `shutil.copytree(src, dst, symlinks=True, dirs_exist_ok=True)` over the
flat map: ensure `dst` (with parents), then copy every entry reachable below
`root`.  The first component is `false` when creating `dst` itself failed
(the whole call raises); the error list collects per-entry failures, for
which `copytree` raises `shutil.Error` at the end after copying the rest. -/
def copytreeF (locked : List Path) (fs : FS) (root dst : Path) :
    Bool × FS × List Path :=
  match makedirsF fs dst with
  | (false, fs') => (false, fs', [])
  | (true, fs') =>
      let items := fs.filter (fun e => reachUnder fs root e.1)
      let st := items.foldl (copytreeEntry locked root dst) (fs', [])
      (true, st.1, st.2)

/-- `shutil.copy2(src, dst)`: follows the source symlink chain and writes a
regular file at `dst`; fails when the physical source file is locked. -/
def copy2F (locked : List Path) (fs : FS) (src dst : Path) : Bool × FS :=
  match statF fs src with
  | some (q, Node.file sz) =>
      if q ∈ locked then (false, fs)
      else (true, insertFS fs dst (Node.file sz))
  | _ => (false, fs)

/-- The clearing step of the directory branch: a conflicting regular file at
the destination item is removed first. -/
def clearConflictFile (fs : FS) (dstI : Path) : FS :=
  if isfileF fs dstI then eraseFS fs dstI else fs

/-- The clearing step of `create_directory_symlink` and of the broken-link
branch of the copy loop: remove whatever occupies a path (unlink a symlink,
rmtree a real directory, remove a file). -/
def clearPath (fs : FS) (link : Path) : FS :=
  if lexistsF fs link then
    if islinkF fs link then eraseFS fs link
    else if isdirF fs link then eraseTreeFS fs link
    else eraseFS fs link
  else fs

/-- The directory branch of the copy loop (`shutil.copytree`); a failing
`copytree` (including one that raises `shutil.Error` after copying what it
could) marks the item failed. -/
def copyItemDir (locked : List Path) (src dst : Path)
    (acc : FS × List Path) (name : Seg) : FS × List Path :=
  match statF (clearConflictFile acc.1 (dst ++ [name])) (src ++ [name]) with
  | some (srcR, _) =>
      match copytreeF locked (clearConflictFile acc.1 (dst ++ [name])) srcR
          (dst ++ [name]) with
      | (true, fs2, []) => (fs2, acc.2)
      | (true, fs2, _ :: _) => (fs2, acc.2 ++ [src ++ [name]])
      | (false, fs2, _) => (fs2, acc.2 ++ [src ++ [name]])
  | none => (clearConflictFile acc.1 (dst ++ [name]), acc.2 ++ [src ++ [name]])

/-- The regular-file branch of the copy loop (`shutil.copy2` after removing
a conflicting destination directory). -/
def copyItemFile (locked : List Path) (src dst : Path)
    (acc : FS × List Path) (name : Seg) : FS × List Path :=
  if isdirF acc.1 (dst ++ [name]) then
    match remove_directory_recursive acc.1 (dst ++ [name]) with
    | (false, fs1) => (fs1, acc.2 ++ [src ++ [name]])
    | (true, fs1) =>
        match copy2F locked fs1 (src ++ [name]) (dst ++ [name]) with
        | (false, fs2) => (fs2, acc.2 ++ [src ++ [name]])
        | (true, fs2) => (fs2, acc.2)
  else
    match copy2F locked acc.1 (src ++ [name]) (dst ++ [name]) with
    | (false, fs2) => (fs2, acc.2 ++ [src ++ [name]])
    | (true, fs2) => (fs2, acc.2)

/-- The broken-symlink branch of the copy loop: clear the destination, then
recreate the link with the same raw target. -/
def copyItemLink (src dst : Path) (acc : FS × List Path) (name : Seg) :
    FS × List Path :=
  match lookupFS (clearPath acc.1 (dst ++ [name])) (src ++ [name]) with
  | some (Node.symlink t) =>
      (insertFS (clearPath acc.1 (dst ++ [name])) (dst ++ [name])
        (Node.symlink t), acc.2)
  | _ => (clearPath acc.1 (dst ++ [name]), acc.2 ++ [src ++ [name]])

/-- The per-item body of `copy_directory_contents_robust`'s loop, including
the per-item `try`/`except` that appends the failed item and continues.
Mirrors the source's branch order: `isdir` (follows links!) then `isfile`
(follows links!) then `islink` (hence reached only for broken links) then
skip (unsupported types are logged but NOT recorded as failed). -/
def copyItem (locked : List Path) (src dst : Path)
    (acc : FS × List Path) (name : Seg) : FS × List Path :=
  if isdirF acc.1 (src ++ [name]) then copyItemDir locked src dst acc name
  else if isfileF acc.1 (src ++ [name]) then copyItemFile locked src dst acc name
  else if islinkF acc.1 (src ++ [name]) then copyItemLink src dst acc name
  else acc

/-- The per-item loop of `copy_directory_contents_robust`: one `os.listdir`
snapshot of the source, folded through `copyItem`. -/
def copyLoop (locked : List Path) (src dst : Path) (fs : FS) :
    Bool × FS × List Path :=
  match (childrenNames fs src).foldl (copyItem locked src dst) (fs, []) with
  | (fs', failed) => (true, fs', failed)

/-- `copy_directory_contents_robust` from the source.  The first component
is `false` when the whole call raised (destination creation failed or the
destination exists as a non-directory); otherwise the failed-item list is
returned.  `os.listdir` is one snapshot taken after the destination has been
created, as in the source. -/
def copy_directory_contents_robust (locked : List Path) (fs : FS)
    (src dst : Path) : Bool × FS × List Path :=
  if existsF fs dst then
    if isdirF fs dst then copyLoop locked src dst fs
    else (false, fs, [])
  else
    match makedirsF fs dst with
    | (false, fs') => (false, fs', [])
    | (true, fs') => copyLoop locked src dst fs'

/-- The directories visited by `os.walk(top)` (default
`followlinks=False`): `top` itself plus every real directory below it
reachable through real directories. -/
def walkedDirs (fs : FS) (top : Path) : List Path :=
  top :: ((fs.map Prod.fst).filter (fun q =>
    reachUnder fs top q && decide (lookupFS fs q = some Node.dir)))

/-- The full paths of the entries `os.walk` lists inside directory `d`. -/
def dirEntries (fs : FS) (d : Path) : List Path :=
  (childrenNames fs d).map (fun n => d ++ [n])

/-- The `files` component of a walk step: entries that are not directories
after following links (so symlinks to files and broken symlinks land here). -/
def filesOf (fs : FS) (d : Path) : List Path :=
  (dirEntries fs d).filter (fun p => !(isdirF fs p))

/-- The `dirs` component of a walk step. -/
def dirsOf (fs : FS) (d : Path) : List Path :=
  (dirEntries fs d).filter (fun p => isdirF fs p)

/-- All entries `os.walk` ever lists, as full paths. -/
def walkEntries (fs : FS) (top : Path) : List Path :=
  (walkedDirs fs top).flatMap (dirEntries fs)

/-- The item count `validate_copy_basic` computes for one side:
`len(dirs) + len(files)` summed over the walk. -/
def itemsCountF (fs : FS) (top : Path) : Nat :=
  ((walkedDirs fs top).map
    (fun d => (dirsOf fs d).length + (filesOf fs d).length)).sum

/-- The byte total `validate_copy_basic` computes for one side:
`os.path.getsize` summed over every `files` entry of the walk. -/
def sizeSumF (fs : FS) (top : Path) : Nat :=
  ((walkedDirs fs top).map
    (fun d => ((filesOf fs d).map (getsizeF fs)).sum)).sum

/-- `validate_copy_basic` from the source: item counts and byte totals must
both match. -/
def validate_copy_basic (fs : FS) (src dst : Path) : Bool :=
  decide (itemsCountF fs src = itemsCountF fs dst) &&
    decide (sizeSumF fs src = sizeSumF fs dst)

/-- The `os.symlink(target, link, target_is_directory=True)` step: fails if
the link path is still occupied or its parent directory does not exist. -/
def symlinkAt (fs1 : FS) (link : Path) (target : RawPath) : Bool × FS :=
  if lexistsF fs1 link then (false, fs1)
  else if isdirF fs1 (dirname link) then
    (true, insertFS fs1 link (Node.symlink target))
  else (false, fs1)

/-- `create_directory_symlink` from the source (POSIX branch): clear whatever
occupies the link path, then `os.symlink(target, link)`. -/
def create_directory_symlink (fs : FS) (link : Path) (target : RawPath) :
    Bool × FS :=
  symlinkAt (clearPath fs link) link target

/-- The errors `migrate_and_link_directory` can raise, one constructor per
`raise` site of the source. -/
inductive MErr where
  | samePath
  | parentDirs
  | storageNotDir
  | copyRaised
  | partialCopy (failed : List Path)
  | validationMismatch
  | removeOrig
  | storageCreate
  | linkParent
  | linkCreate
  | linkMissing
  | linkNotLink
  | linkWrongTarget
deriving DecidableEq, Repr

/-- The source's early already-aligned check (lines 193–205): the original
path is a symlink and `os.path.abspath` of its (prefix-stripped) raw target
equals the normalized storage path.  Note this resolves a relative stored
target against the working directory, not the link's parent. -/
def earlyAlignedF (fs : FS) (no ns : Path) : Bool :=
  match lookupFS fs no with
  | some (Node.symlink t) => decide (normalize_path t = ns)
  | _ => false

/-- The source's final link validation resolution (lines 326–341): read the
raw target; a relative target is resolved against the link's parent
directory, an absolute one is normalized directly. -/
def finalLinkResolve (fs : FS) (no : Path) : Option Path :=
  match lookupFS fs no with
  | some (Node.symlink t) =>
      some (if t.isAbs then normSegs t.segs else normSegs (dirname no ++ t.segs))
  | _ => none

/-- Steps 7–8 of `migrate_and_link_directory`: create the symlink at the
original path pointing at the absolute storage path
(`normalize_path(norm_new_storage_path)`), then validate it. -/
def migrateLink (fs : FS) (no ns : Path) : (Except MErr Unit) × FS :=
  match create_directory_symlink fs no ⟨true, normSegs ns⟩ with
  | (false, fs7) => (Except.error MErr.linkCreate, fs7)
  | (true, fs7) =>
      if lexistsF fs7 no then
        if islinkF fs7 no then
          match finalLinkResolve fs7 no with
          | some abs =>
              if abs = ns then (Except.ok (), fs7)
              else (Except.error MErr.linkWrongTarget, fs7)
          | none => (Except.error MErr.linkWrongTarget, fs7)
        else (Except.error MErr.linkNotLink, fs7)
      else (Except.error MErr.linkMissing, fs7)

/-- The step of `migrate_and_link_directory` that ensures the parent
directory of the link exists (lines 292–299), then links (steps 7–8). -/
def migrateLinkParent (fs : FS) (no ns : Path) : (Except MErr Unit) × FS :=
  match
    (if ¬ dirname no = [] ∧ existsF fs (dirname no) = false
     then makedirsF fs (dirname no) else (true, fs)) with
  | (false, fs6) => (Except.error MErr.linkParent, fs6)
  | (true, fs6) => migrateLink fs6 no ns

/-- The tail of `migrate_and_link_directory` after the optional copy phase:
ensure the storage directory exists when no copy created it, ensure the
link's parent directory exists, then create and validate the link. -/
def migrateEnsureAndLink (fs : FS) (no ns : Path) (performCopy : Bool) :
    (Except MErr Unit) × FS :=
  match
    (if !performCopy && !isdirF fs ns then makedirsF fs ns else (true, fs)) with
  | (false, fs5) => (Except.error MErr.storageCreate, fs5)
  | (true, fs5) => migrateLinkParent fs5 no ns

/-- Step 6 of `migrate_and_link_directory`: delete the original directory
(when it existed as one), double-check it is gone, then continue. -/
def migrateDelete (fs : FS) (no ns : Path)
    (origExistedAsDir performCopy : Bool) : (Except MErr Unit) × FS :=
  if origExistedAsDir then
    match remove_directory_recursive fs no with
    | (false, fs4) => (Except.error MErr.removeOrig, fs4)
    | (true, fs4) =>
        if existsF fs4 no then (Except.error MErr.removeOrig, fs4)
        else migrateEnsureAndLink fs4 no ns performCopy
  else migrateEnsureAndLink fs no ns performCopy

/-- Steps 4–5 of `migrate_and_link_directory`: the robust copy, the
failed-items gate, and the optional basic validation, then the tail.  This
phase runs only when the original existed as a directory and the storage
path did not exist, so `origExistedAsDir` and `performCopy` are both `true`
in the tail. -/
def migrateCopyPhase (locked : List Path) (fs : FS) (no ns : Path)
    (skipValidation : Bool) : (Except MErr Unit) × FS :=
  match copy_directory_contents_robust locked fs no ns with
  | (false, fs3, _) => (Except.error MErr.copyRaised, fs3)
  | (true, fs3, failed) =>
      if failed = [] then
        if !skipValidation && !validate_copy_basic fs3 no ns then
          (Except.error MErr.validationMismatch, fs3)
        else migrateDelete fs3 no ns true true
      else (Except.error (MErr.partialCopy failed), fs3)

/-- The body of `migrate_and_link_directory` on the already-normalized
paths.  `isdirF fs no` is the source's `original_path_existed_as_dir`
snapshot, taken on the filesystem as it is before any mutation; in the
branch that skips the copy, `performCopy` is `false`. -/
def migrateMain (locked : List Path) (fs : FS) (no ns : Path)
    (skipValidation : Bool) : (Except MErr Unit) × FS :=
  if earlyAlignedF fs no ns then (Except.ok (), fs)
  else if no = ns then (Except.error MErr.samePath, fs)
  else
    match create_parent_dirs fs ns with
    | (false, fs1) => (Except.error MErr.parentDirs, fs1)
    | (true, fs1) =>
        match create_parent_dirs fs1 no with
        | (false, fs2) => (Except.error MErr.parentDirs, fs2)
        | (true, fs2) =>
            if existsF fs2 ns && !isdirF fs2 ns then
              (Except.error MErr.storageNotDir, fs2)
            else if isdirF fs no && !existsF fs2 ns then
              migrateCopyPhase locked fs2 no ns skipValidation
            else migrateDelete fs2 no ns (isdirF fs no) false

/-- `migrate_and_link_directory` from the source: the full copy-then-delete
alignment entry point, faithful to the source's statement order. -/
def migrate_and_link_directory (locked : List Path) (fs : FS)
    (orig storage : RawPath) (skipValidation : Bool) :
    (Except MErr Unit) × FS :=
  migrateMain locked fs (normalize_path orig) (normalize_path storage)
    skipValidation

/-- Well-formedness of a filesystem map: keys are distinct nonempty paths and
every proper nonempty prefix of a key is a real directory (so nodes sit at
canonical paths). -/
def WFfs (fs : FS) : Prop :=
  (fs.map Prod.fst).Nodup ∧
    ∀ e ∈ fs, e.1 ≠ [] ∧
      ∀ q : Path, q ≠ [] → q <+: e.1 → q ≠ e.1 → lookupFS fs q = some Node.dir

/-! ## Basic lemmas about the filesystem primitives -/

theorem leadsTo_iff {a b : Path} : leadsTo a b = true ↔ a <+: b := by
  induction a generalizing b with
  | nil => simp [leadsTo]
  | cons x xs ih =>
    cases b with
    | nil => simp [leadsTo]
    | cons y ys =>
      simp [leadsTo, ih, List.cons_prefix_cons, and_comm]

theorem lookupFS_insert_self (fs : FS) (p : Path) (n : Node) :
    lookupFS (insertFS fs p n) p = some n := by
  simp [lookupFS, insertFS]

theorem eraseFS_cons (e : Path × Node) (fs : FS) (p : Path) :
    eraseFS (e :: fs) p =
      if e.1 = p then eraseFS fs p else e :: eraseFS fs p := by
  by_cases he : e.1 = p <;> simp [eraseFS, List.filter_cons, he]

theorem eraseTreeFS_cons (e : Path × Node) (fs : FS) (p : Path) :
    eraseTreeFS (e :: fs) p =
      if leadsTo p e.1 = true then eraseTreeFS fs p
      else e :: eraseTreeFS fs p := by
  by_cases he : leadsTo p e.1 = true <;> simp [eraseTreeFS, List.filter_cons, he]

theorem lookupFS_erase_ne (fs : FS) (p q : Path) (h : q ≠ p) :
    lookupFS (eraseFS fs p) q = lookupFS fs q := by
  induction fs with
  | nil => rfl
  | cons e fs ih =>
    rw [eraseFS_cons]
    by_cases he : e.1 = p
    · rw [if_pos he, ih]
      have hne : ¬ e.1 = q := by rw [he]; exact fun hq => h hq.symm
      simp [lookupFS, hne]
    · rw [if_neg he]
      by_cases heq : e.1 = q
      · simp [lookupFS, heq]
      · simp only [lookupFS, heq, if_false]
        exact ih

theorem lookupFS_erase_self (fs : FS) (p : Path) :
    lookupFS (eraseFS fs p) p = none := by
  induction fs with
  | nil => rfl
  | cons e fs ih =>
    rw [eraseFS_cons]
    by_cases he : e.1 = p
    · rw [if_pos he]; exact ih
    · rw [if_neg he]
      simp only [lookupFS, he, if_false]
      exact ih

theorem lookupFS_insert_ne (fs : FS) (p q : Path) (n : Node) (h : q ≠ p) :
    lookupFS (insertFS fs p n) q = lookupFS fs q := by
  unfold insertFS
  have hne : ¬ (p, n).1 = q := fun hq => h hq.symm
  simp only [lookupFS, hne, if_false]
  exact lookupFS_erase_ne fs p q h

theorem lookupFS_eraseTree_not_under (fs : FS) (p q : Path) (h : ¬ p <+: q) :
    lookupFS (eraseTreeFS fs p) q = lookupFS fs q := by
  induction fs with
  | nil => rfl
  | cons e fs ih =>
    rw [eraseTreeFS_cons]
    by_cases he : leadsTo p e.1 = true
    · rw [if_pos he, ih]
      have hne : ¬ e.1 = q := by
        intro hq; exact h (hq ▸ leadsTo_iff.mp he)
      simp [lookupFS, hne]
    · rw [if_neg he]
      by_cases heq : e.1 = q
      · simp [lookupFS, heq]
      · simp only [lookupFS, heq, if_false]
        exact ih

theorem lookupFS_eraseTree_under (fs : FS) (p q : Path) (h : p <+: q) :
    lookupFS (eraseTreeFS fs p) q = none := by
  induction fs with
  | nil => rfl
  | cons e fs ih =>
    rw [eraseTreeFS_cons]
    by_cases he : leadsTo p e.1 = true
    · rw [if_pos he]; exact ih
    · rw [if_neg he]
      have hne : ¬ e.1 = q := by
        intro hq
        exact he (leadsTo_iff.mpr (hq ▸ h))
      simp only [lookupFS, hne, if_false]
      exact ih

/-- Membership characterization of `lookupFS` results. -/
theorem lookupFS_mem {fs : FS} {p : Path} {n : Node}
    (h : lookupFS fs p = some n) : (p, n) ∈ fs := by
  induction fs with
  | nil => simp [lookupFS] at h
  | cons e fs ih =>
    unfold lookupFS at h
    by_cases he : e.1 = p
    · rw [if_pos he] at h
      obtain ⟨a, b⟩ := e
      simp only [Option.some.injEq] at h
      simp only at he
      subst he
      subst h
      exact List.mem_cons_self _ _
    · rw [if_neg he] at h
      exact List.mem_cons_of_mem _ (ih h)

theorem lookupFS_eq_none {fs : FS} {p : Path}
    (h : ∀ n, (p, n) ∉ fs) : lookupFS fs p = none := by
  induction fs with
  | nil => rfl
  | cons e fs ih =>
    unfold lookupFS
    by_cases he : e.1 = p
    · exfalso
      exact h e.2 (by cases e; simp_all)
    · simp only [he, if_false]
      exact ih fun n hn => h n (List.mem_cons_of_mem _ hn)

/-- `resolveFollow` is monotone in fuel. -/
theorem resolveFollow_mono {fs : FS} {p : Path} {r : Path × Node} :
    ∀ {f1 f2 : Nat}, f1 ≤ f2 → resolveFollow fs f1 p = some r →
      resolveFollow fs f2 p = some r := by
  intro f1
  induction f1 generalizing p with
  | zero => intro f2 _ h; simp [resolveFollow] at h
  | succ f ih =>
    intro f2 hle h
    obtain ⟨f2', rfl⟩ : ∃ k, f2 = k + 1 :=
      ⟨f2 - 1, by omega⟩
    unfold resolveFollow at h ⊢
    by_cases hp : p = []
    · simpa [hp] using (by simpa [hp] using h)
    · simp only [if_neg hp] at h ⊢
      cases hl : lookupFS fs p with
      | none => simp [hl] at h
      | some n =>
        cases n with
        | symlink t =>
          simp only [hl] at h ⊢
          exact ih (by omega) h
        | file sz => simpa [hl] using (by simpa [hl] using h)
        | dir => simpa [hl] using (by simpa [hl] using h)
        | other => simpa [hl] using (by simpa [hl] using h)

theorem statF_of_dir {fs : FS} {p : Path} (h : lookupFS fs p = some Node.dir) :
    statF fs p = some (p, Node.dir) := by
  unfold statF FUEL resolveFollow
  by_cases hp : p = [] <;> simp [hp, h]

theorem statF_of_file {fs : FS} {p : Path} {sz : Nat}
    (h : lookupFS fs p = some (Node.file sz)) (hp : p ≠ []) :
    statF fs p = some (p, Node.file sz) := by
  unfold statF FUEL resolveFollow
  simp [hp, h]

theorem statF_of_none {fs : FS} {p : Path} (h : lookupFS fs p = none)
    (hp : p ≠ []) : statF fs p = none := by
  unfold statF FUEL resolveFollow
  simp [hp, h]

theorem isdirF_of_dir {fs : FS} {p : Path} (h : lookupFS fs p = some Node.dir) :
    isdirF fs p = true := by
  simp [isdirF, statF_of_dir h]

theorem isdirF_root (fs : FS) : isdirF fs [] = true := by
  simp [isdirF, statF, FUEL, resolveFollow]

theorem existsF_of_dir {fs : FS} {p : Path} (h : lookupFS fs p = some Node.dir) :
    existsF fs p = true := by
  simp [existsF, statF_of_dir h]

theorem existsF_of_none {fs : FS} {p : Path} (h : lookupFS fs p = none)
    (hp : p ≠ []) : existsF fs p = false := by
  simp [existsF, statF_of_none h hp]

theorem isdirF_of_none {fs : FS} {p : Path} (h : lookupFS fs p = none)
    (hp : p ≠ []) : isdirF fs p = false := by
  simp [isdirF, statF_of_none h hp]

theorem islinkF_of_not_symlink {fs : FS} {p : Path}
    (h : ∀ t, lookupFS fs p ≠ some (Node.symlink t)) : islinkF fs p = false := by
  unfold islinkF
  cases hl : lookupFS fs p with
  | none => rfl
  | some n => cases n <;> simp_all

/-! ## Mutation scope

`ScopedTo dst fs0 fs1` says every difference between `fs0` and `fs1` lies
at or below `dst`, except for fresh directories created on the chain of
prefixes leading to `dst`.  All the mutating primitives of the tool satisfy
it for their destination, which is what lets us track which parts of the
tree an operation can touch. -/

def ScopedTo (dst : Path) (fs0 fs1 : FS) : Prop :=
  ∀ q, lookupFS fs1 q ≠ lookupFS fs0 q →
    dst <+: q ∨
      (q ≠ [] ∧ q <+: dst ∧ lookupFS fs0 q = none ∧
        lookupFS fs1 q = some Node.dir)

theorem ScopedTo.refl (dst : Path) (fs : FS) : ScopedTo dst fs fs :=
  fun _ h => absurd rfl h

theorem ScopedTo.trans {dst : Path} {fs0 fs1 fs2 : FS}
    (h01 : ScopedTo dst fs0 fs1) (h12 : ScopedTo dst fs1 fs2) :
    ScopedTo dst fs0 fs2 := by
  intro q hq
  by_cases he : lookupFS fs1 q = lookupFS fs0 q
  · rcases h12 q (by rw [he]; exact hq) with h | ⟨h1, h2, h3, h4⟩
    · exact Or.inl h
    · exact Or.inr ⟨h1, h2, by rw [← he, h3], h4⟩
  · rcases h01 q he with h | ⟨h1, h2, h3, h4⟩
    · exact Or.inl h
    · by_cases he2 : lookupFS fs2 q = lookupFS fs1 q
      · exact Or.inr ⟨h1, h2, h3, by rw [he2, h4]⟩
      · rcases h12 q he2 with h | ⟨_, _, h3', _⟩
        · exact Or.inl h
        · rw [h4] at h3'; cases h3'

theorem ScopedTo.mono {dst dst' : Path} {fs0 fs1 : FS} (hp : dst <+: dst')
    (h : ScopedTo dst' fs0 fs1) : ScopedTo dst fs0 fs1 := by
  intro q hq
  rcases h q hq with hu | ⟨h1, h2, h3, h4⟩
  · exact Or.inl (hp.trans hu)
  · rcases List.prefix_or_prefix_of_prefix hp h2 with hc | hc
    · exact Or.inl hc
    · exact Or.inr ⟨h1, hc, h3, h4⟩

theorem insertFS_scoped {fs : FS} {p : Path} (n : Node) :
    ScopedTo p fs (insertFS fs p n) := by
  intro q hq
  by_cases he : q = p
  · exact Or.inl (he ▸ List.prefix_refl p)
  · rw [lookupFS_insert_ne fs p q n he] at hq
    exact absurd rfl hq

theorem eraseFS_scoped {fs : FS} {p : Path} :
    ScopedTo p fs (eraseFS fs p) := by
  intro q hq
  by_cases he : q = p
  · exact Or.inl (he ▸ List.prefix_refl p)
  · rw [lookupFS_erase_ne fs p q he] at hq
    exact absurd rfl hq

theorem eraseTreeFS_scoped {fs : FS} {p : Path} :
    ScopedTo p fs (eraseTreeFS fs p) := by
  intro q hq
  by_cases he : p <+: q
  · exact Or.inl he
  · rw [lookupFS_eraseTree_not_under fs p q he] at hq
    exact absurd rfl hq

theorem prefixesUpTo_mem {p q : Path} (h : q ∈ prefixesUpTo p) :
    q ≠ [] ∧ q <+: p := by
  unfold prefixesUpTo at h
  simp only [List.mem_map, List.mem_range] at h
  obtain ⟨i, hi, rfl⟩ := h
  constructor
  · have : p.length ≠ 0 := by omega
    intro hq
    have := congrArg List.length hq
    simp only [List.length_take, List.length_nil] at this
    omega
  · exact List.take_prefix _ _

/-- The single-step body of `makedirsF`. -/
def makedirsStep (st : Bool × FS) (q : Path) : Bool × FS :=
  match st with
  | (false, fs') => (false, fs')
  | (true, fs') =>
    if isdirF fs' q then (true, fs')
    else
      match lookupFS fs' q with
      | none => (true, insertFS fs' q Node.dir)
      | some _ => (false, fs')

theorem makedirsF_eq_fold (fs : FS) (p : Path) :
    makedirsF fs p = (prefixesUpTo p).foldl makedirsStep (true, fs) := rfl

theorem makedirs_fold_changes {p : Path} :
    ∀ (l : List Path) (st : Bool × FS), (∀ r ∈ l, r ≠ [] ∧ r <+: p) →
      ∀ q, lookupFS (l.foldl makedirsStep st).2 q ≠ lookupFS st.2 q →
        q ≠ [] ∧ q <+: p ∧ lookupFS st.2 q = none ∧
          lookupFS (l.foldl makedirsStep st).2 q = some Node.dir := by
  intro l
  induction l with
  | nil => intro st _ q hq; exact absurd rfl hq
  | cons r l ih =>
    intro st hl q hq
    rw [List.foldl_cons] at hq ⊢
    by_cases he : lookupFS (makedirsStep st r).2 q = lookupFS st.2 q
    · have := ih (makedirsStep st r) (fun r' hr' => hl r' (List.mem_cons_of_mem _ hr'))
        q (by rw [he]; exact hq)
      exact ⟨this.1, this.2.1, by rw [← he, this.2.2.1], this.2.2.2⟩
    · -- the step itself changed `q`: it must have inserted the fresh dir `r = q`
      rcases st with ⟨b, fs'⟩
      cases b with
      | false => simp [makedirsStep] at he
      | true =>
        by_cases hdir : isdirF fs' r = true
        · rw [show makedirsStep (true, fs') r = (true, fs') by
            simp [makedirsStep, hdir]] at he
          exact absurd rfl he
        · cases hlr : lookupFS fs' r with
          | some n =>
            rw [show makedirsStep (true, fs') r = (false, fs') by
              simp [makedirsStep, hdir, hlr]] at he
            exact absurd rfl he
          | none =>
            have hstep :
                makedirsStep (true, fs') r = (true, insertFS fs' r Node.dir) := by
              simp [makedirsStep, hdir, hlr]
            rw [hstep] at he hq ⊢
            by_cases hqr : q = r
            · subst hqr
              obtain ⟨hr1, hr2⟩ := hl q (List.mem_cons_self _ _)
              refine ⟨hr1, hr2, hlr, ?_⟩
              by_cases hfin :
                  lookupFS (l.foldl makedirsStep (true, insertFS fs' q Node.dir)).2 q =
                    lookupFS (true, insertFS fs' q Node.dir).2 q
              · rw [hfin]
                exact lookupFS_insert_self _ _ _
              · have := ih _ (fun r' hr' => hl r' (List.mem_cons_of_mem _ hr')) q hfin
                rw [show (true, insertFS fs' q Node.dir).2 = insertFS fs' q Node.dir
                  from rfl, lookupFS_insert_self] at this
                cases this.2.2.1
            · rw [show (true, insertFS fs' r Node.dir).2 = insertFS fs' r Node.dir
                from rfl, lookupFS_insert_ne fs' r q Node.dir hqr] at he
              exact absurd rfl he

theorem makedirsF_changes {fs : FS} {p q : Path}
    (h : lookupFS (makedirsF fs p).2 q ≠ lookupFS fs q) :
    q ≠ [] ∧ q <+: p ∧ lookupFS fs q = none ∧
      lookupFS (makedirsF fs p).2 q = some Node.dir := by
  rw [makedirsF_eq_fold] at h ⊢
  exact makedirs_fold_changes (prefixesUpTo p) (true, fs)
    (fun r hr => prefixesUpTo_mem hr) q h

theorem makedirsF_preserves_some {fs : FS} {p q : Path} {n : Node}
    (h : lookupFS fs q = some n) :
    lookupFS (makedirsF fs p).2 q = some n := by
  by_cases hc : lookupFS (makedirsF fs p).2 q = lookupFS fs q
  · rw [hc, h]
  · rw [(makedirsF_changes hc).2.2.1] at h; cases h

theorem makedirsF_scoped (fs : FS) (p : Path) :
    ScopedTo p fs (makedirsF fs p).2 := by
  intro q hq
  have := makedirsF_changes hq
  exact Or.inr this

theorem create_parent_dirs_changes {fs : FS} {p q : Path}
    (h : lookupFS (create_parent_dirs fs p).2 q ≠ lookupFS fs q) :
    q ≠ [] ∧ q <+: dirname p ∧ lookupFS fs q = none ∧
      lookupFS (create_parent_dirs fs p).2 q = some Node.dir := by
  unfold create_parent_dirs at h ⊢
  by_cases h1 : dirname p = []
  · rw [if_pos h1] at h
    exact absurd rfl h
  · rw [if_neg h1] at h ⊢
    by_cases h2 : existsF fs (dirname p) = true
    · rw [if_pos h2] at h
      exact absurd rfl h
    · rw [if_neg h2] at h ⊢
      exact makedirsF_changes h

theorem create_parent_dirs_preserves_some (p : Path) {fs : FS} {q : Path}
    {n : Node} (h : lookupFS fs q = some n) :
    lookupFS (create_parent_dirs fs p).2 q = some n := by
  by_cases hc : lookupFS (create_parent_dirs fs p).2 q = lookupFS fs q
  · rw [hc, h]
  · rw [(create_parent_dirs_changes hc).2.2.1] at h; cases h

theorem ScopedTo.preserves_some {dst : Path} {fs0 fs1 : FS} {q : Path}
    {n : Node} (h : ScopedTo dst fs0 fs1) (hq : lookupFS fs0 q = some n)
    (hnd : ¬ dst <+: q) : lookupFS fs1 q = some n := by
  by_cases hc : lookupFS fs1 q = lookupFS fs0 q
  · rw [hc, hq]
  · rcases h q hc with hu | ⟨_, _, h3, _⟩
    · exact absurd hu hnd
    · rw [h3] at hq; cases hq

theorem ScopedTo.preserves_root {dst : Path} {fs0 fs1 : FS}
    (h : ScopedTo dst fs0 fs1) (hd : dst ≠ []) :
    lookupFS fs1 [] = lookupFS fs0 [] := by
  by_cases hc : lookupFS fs1 [] = lookupFS fs0 []
  · exact hc
  · rcases h [] hc with hu | ⟨h1, _, _, _⟩
    · exact absurd (List.prefix_nil.mp hu) hd
    · exact absurd rfl h1

theorem rebase_under (root dst p : Path) : dst <+: rebase root dst p :=
  List.prefix_append _ _

theorem copytreeEntry_scoped (locked : List Path) (root dst : Path)
    (st : FS × List Path) (e : Path × Node) :
    ScopedTo dst st.1 (copytreeEntry locked root dst st e).1 := by
  unfold copytreeEntry
  rcases e with ⟨p, n⟩
  dsimp only
  cases n with
  | dir => exact ScopedTo.mono (rebase_under root dst p) (insertFS_scoped Node.dir)
  | file sz =>
    show ScopedTo dst st.1
      (if p ∈ locked then (st.1, st.2 ++ [p])
       else (insertFS st.1 (rebase root dst p) (Node.file sz), st.2)).1
    by_cases hl : p ∈ locked
    · rw [if_pos hl]
      exact ScopedTo.refl _ _
    · rw [if_neg hl]
      exact ScopedTo.mono (rebase_under root dst p) (insertFS_scoped _)
  | symlink t => exact ScopedTo.mono (rebase_under root dst p) (insertFS_scoped _)
  | other => exact ScopedTo.refl _ _

theorem foldl_pair_scoped {α : Type} (dst : Path)
    (f : (FS × List Path) → α → (FS × List Path))
    (hf : ∀ st a, ScopedTo dst st.1 (f st a).1) :
    ∀ (l : List α) (st : FS × List Path), ScopedTo dst st.1 (l.foldl f st).1 := by
  intro l
  induction l with
  | nil => intro st; exact ScopedTo.refl _ _
  | cons a l ih =>
    intro st
    rw [List.foldl_cons]
    exact (hf st a).trans (ih (f st a))

theorem copytreeF_scoped (locked : List Path) (fs : FS) (root dst : Path) :
    ScopedTo dst fs (copytreeF locked fs root dst).2.1 := by
  unfold copytreeF
  cases hm : makedirsF fs dst with
  | mk b fs' =>
    have h1 : ScopedTo dst fs fs' := by
      have := makedirsF_scoped fs dst
      rw [hm] at this
      exact this
    cases b
    · exact h1
    · exact h1.trans
        (foldl_pair_scoped dst (copytreeEntry locked root dst)
          (copytreeEntry_scoped locked root dst)
          (fs.filter fun e => reachUnder fs root e.1) (fs', []))

theorem copy2F_scoped (locked : List Path) (fs : FS) (src dst : Path) :
    ScopedTo dst fs (copy2F locked fs src dst).2 := by
  unfold copy2F
  cases hs : statF fs src with
  | none => exact ScopedTo.refl _ _
  | some r =>
    rcases r with ⟨q, n⟩
    cases n with
    | file sz =>
      dsimp only
      by_cases hl : q ∈ locked
      · rw [if_pos hl]
        exact ScopedTo.refl _ _
      · rw [if_neg hl]
        exact insertFS_scoped _
    | dir => exact ScopedTo.refl _ _
    | symlink t => exact ScopedTo.refl _ _
    | other => exact ScopedTo.refl _ _

theorem remove_directory_recursive_scoped (fs : FS) (p : Path) :
    ScopedTo p fs (remove_directory_recursive fs p).2 := by
  unfold remove_directory_recursive
  by_cases hl : islinkF fs p = true
  · rw [if_pos hl]
    exact ScopedTo.refl _ _
  · rw [if_neg hl]
    cases hn : lookupFS fs p with
    | none => exact ScopedTo.refl _ _
    | some n =>
      cases n with
      | dir => exact eraseTreeFS_scoped
      | file sz => exact ScopedTo.refl _ _
      | symlink t => exact ScopedTo.refl _ _
      | other => exact ScopedTo.refl _ _

theorem clearConflictFile_scoped (fs : FS) (p : Path) :
    ScopedTo p fs (clearConflictFile fs p) := by
  unfold clearConflictFile
  by_cases hf : isfileF fs p = true
  · rw [if_pos hf]
    exact eraseFS_scoped
  · rw [if_neg hf]
    exact ScopedTo.refl _ _

theorem clearPath_scoped (fs : FS) (p : Path) :
    ScopedTo p fs (clearPath fs p) := by
  unfold clearPath
  by_cases h1 : lexistsF fs p = true
  · rw [if_pos h1]
    by_cases h2 : islinkF fs p = true
    · rw [if_pos h2]
      exact eraseFS_scoped
    · rw [if_neg h2]
      by_cases h3 : isdirF fs p = true
      · rw [if_pos h3]
        exact eraseTreeFS_scoped
      · rw [if_neg h3]
        exact eraseFS_scoped
  · rw [if_neg h1]
    exact ScopedTo.refl _ _

theorem symlinkAt_scoped (fs1 : FS) (l : Path) (t : RawPath) :
    ScopedTo l fs1 (symlinkAt fs1 l t).2 := by
  unfold symlinkAt
  by_cases h1 : lexistsF fs1 l = true
  · rw [if_pos h1]
    exact ScopedTo.refl _ _
  · rw [if_neg h1]
    by_cases h2 : isdirF fs1 (dirname l) = true
    · rw [if_pos h2]
      exact insertFS_scoped _
    · rw [if_neg h2]
      exact ScopedTo.refl _ _

theorem create_directory_symlink_scoped (fs : FS) (l : Path) (t : RawPath) :
    ScopedTo l fs (create_directory_symlink fs l t).2 :=
  (clearPath_scoped fs l).trans (symlinkAt_scoped (clearPath fs l) l t)

theorem copyItemDir_scoped (locked : List Path) (src dst : Path)
    (acc : FS × List Path) (name : Seg) :
    ScopedTo (dst ++ [name]) acc.1 (copyItemDir locked src dst acc name).1 := by
  unfold copyItemDir
  have hclear : ScopedTo (dst ++ [name]) acc.1 (clearConflictFile acc.1 (dst ++ [name])) :=
    clearConflictFile_scoped acc.1 (dst ++ [name])
  cases hs : statF (clearConflictFile acc.1 (dst ++ [name])) (src ++ [name]) with
  | none => exact hclear
  | some r =>
    rcases r with ⟨srcR, n⟩
    dsimp only
    have hct := copytreeF_scoped locked (clearConflictFile acc.1 (dst ++ [name]))
      srcR (dst ++ [name])
    cases hc : copytreeF locked (clearConflictFile acc.1 (dst ++ [name])) srcR
        (dst ++ [name]) with
    | mk b rest =>
      rcases rest with ⟨fs2, errs⟩
      rw [hc] at hct
      cases b
      · exact hclear.trans hct
      · cases errs
        · exact hclear.trans hct
        · exact hclear.trans hct

theorem copyItemFile_scoped (locked : List Path) (src dst : Path)
    (acc : FS × List Path) (name : Seg) :
    ScopedTo (dst ++ [name]) acc.1 (copyItemFile locked src dst acc name).1 := by
  unfold copyItemFile
  by_cases hd : isdirF acc.1 (dst ++ [name]) = true
  · rw [if_pos hd]
    have hrm := remove_directory_recursive_scoped acc.1 (dst ++ [name])
    cases hr : remove_directory_recursive acc.1 (dst ++ [name]) with
    | mk b fs1 =>
      rw [hr] at hrm
      cases b
      · exact hrm
      · dsimp only
        have hcp := copy2F_scoped locked fs1 (src ++ [name]) (dst ++ [name])
        cases hc : copy2F locked fs1 (src ++ [name]) (dst ++ [name]) with
        | mk b2 fs2 =>
          rw [hc] at hcp
          cases b2
          · exact hrm.trans hcp
          · exact hrm.trans hcp
  · rw [if_neg hd]
    have hcp := copy2F_scoped locked acc.1 (src ++ [name]) (dst ++ [name])
    cases hc : copy2F locked acc.1 (src ++ [name]) (dst ++ [name]) with
    | mk b2 fs2 =>
      rw [hc] at hcp
      cases b2
      · exact hcp
      · exact hcp

theorem copyItemLink_scoped (src dst : Path) (acc : FS × List Path)
    (name : Seg) :
    ScopedTo (dst ++ [name]) acc.1 (copyItemLink src dst acc name).1 := by
  unfold copyItemLink
  have hclear : ScopedTo (dst ++ [name]) acc.1 (clearPath acc.1 (dst ++ [name])) :=
    clearPath_scoped acc.1 (dst ++ [name])
  cases hs : lookupFS (clearPath acc.1 (dst ++ [name])) (src ++ [name]) with
  | none => exact hclear
  | some n =>
    cases n with
    | symlink t => exact hclear.trans (insertFS_scoped _)
    | dir => exact hclear
    | file sz => exact hclear
    | other => exact hclear

theorem copyItem_scoped (locked : List Path) (src dst : Path)
    (acc : FS × List Path) (name : Seg) :
    ScopedTo (dst ++ [name]) acc.1 (copyItem locked src dst acc name).1 := by
  unfold copyItem
  by_cases h1 : isdirF acc.1 (src ++ [name]) = true
  · rw [if_pos h1]
    exact copyItemDir_scoped locked src dst acc name
  · rw [if_neg h1]
    by_cases h2 : isfileF acc.1 (src ++ [name]) = true
    · rw [if_pos h2]
      exact copyItemFile_scoped locked src dst acc name
    · rw [if_neg h2]
      by_cases h3 : islinkF acc.1 (src ++ [name]) = true
      · rw [if_pos h3]
        exact copyItemLink_scoped src dst acc name
      · rw [if_neg h3]
        exact ScopedTo.refl _ _

theorem copyLoop_scoped (locked : List Path) (src dst : Path) (fs : FS) :
    ScopedTo dst fs (copyLoop locked src dst fs).2.1 := by
  unfold copyLoop
  have := foldl_pair_scoped dst (copyItem locked src dst)
    (fun st a => ScopedTo.mono (List.prefix_append dst [a]) (copyItem_scoped locked src dst st a))
    (childrenNames fs src) (fs, [])
  cases hf : (childrenNames fs src).foldl (copyItem locked src dst) (fs, []) with
  | mk fs' failed =>
    rw [hf] at this
    exact this

theorem copy_robust_scoped (locked : List Path) (fs : FS) (src dst : Path) :
    ScopedTo dst fs (copy_directory_contents_robust locked fs src dst).2.1 := by
  unfold copy_directory_contents_robust
  by_cases h1 : existsF fs dst = true
  · rw [if_pos h1]
    by_cases h2 : isdirF fs dst = true
    · rw [if_pos h2]
      exact copyLoop_scoped locked src dst fs
    · rw [if_neg h2]
      exact ScopedTo.refl _ _
  · rw [if_neg h1]
    have hmk := makedirsF_scoped fs dst
    cases hm : makedirsF fs dst with
    | mk b fs' =>
      rw [hm] at hmk
      cases b
      · exact hmk
      · exact hmk.trans (copyLoop_scoped locked src dst fs')

/-! ## Normalization lemmas -/

/-- The step function of `normSegs`. -/
def normStep (acc : Path) (s : Seg) : Path :=
  if s = "" ∨ s = "." then acc
  else if s = ".." then acc.dropLast
  else acc ++ [s]

theorem normSegs_eq_foldl (l : List Seg) : normSegs l = l.foldl normStep [] := rfl

/-- A segment a normalized path can contain. -/
def goodSeg (s : Seg) : Prop := ¬ s = "" ∧ ¬ s = "." ∧ ¬ s = ".."

theorem normStep_good {acc : Path} {s : Seg} (h : ∀ x ∈ acc, goodSeg x) :
    ∀ x ∈ normStep acc s, goodSeg x := by
  unfold normStep
  by_cases h1 : s = "" ∨ s = "."
  · rw [if_pos h1]; exact h
  · rw [if_neg h1]
    by_cases h2 : s = ".."
    · rw [if_pos h2]
      exact fun x hx => h x (List.dropLast_subset acc hx)
    · rw [if_neg h2]
      intro x hx
      rcases List.mem_append.mp hx with hx | hx
      · exact h x hx
      · have : x = s := by simpa using hx
        subst this
        exact ⟨fun he => h1 (Or.inl he), fun he => h1 (Or.inr he), h2⟩

theorem foldl_normStep_good :
    ∀ (l : List Seg) (acc : Path), (∀ x ∈ acc, goodSeg x) →
      ∀ x ∈ l.foldl normStep acc, goodSeg x := by
  intro l
  induction l with
  | nil => intro acc h; exact h
  | cons s l ih =>
    intro acc h
    rw [List.foldl_cons]
    exact ih (normStep acc s) (normStep_good h)

theorem normSegs_good (l : List Seg) : ∀ x ∈ normSegs l, goodSeg x := by
  rw [normSegs_eq_foldl]
  exact foldl_normStep_good l [] (by intro x hx; cases hx)

theorem foldl_normStep_of_good :
    ∀ (l : List Seg) (acc : Path), (∀ x ∈ l, goodSeg x) →
      l.foldl normStep acc = acc ++ l := by
  intro l
  induction l with
  | nil => intro acc _; simp
  | cons s l ih =>
    intro acc h
    have hs : goodSeg s := h s (List.mem_cons_self _ _)
    have hstep : normStep acc s = acc ++ [s] := by
      unfold normStep
      rw [if_neg (by rintro (he | he) <;> [exact hs.1 he; exact hs.2.1 he]),
        if_neg hs.2.2]
    rw [List.foldl_cons, hstep,
      ih (acc ++ [s]) (fun x hx => h x (List.mem_cons_of_mem _ hx))]
    simp

theorem normSegs_idem (l : List Seg) : normSegs (normSegs l) = normSegs l := by
  conv_lhs => rw [normSegs_eq_foldl]
  rw [foldl_normStep_of_good (normSegs l) [] (normSegs_good l)]
  simp

/-! ## Well-formedness and small stat lemmas -/

theorem existsF_root (fs : FS) : existsF fs [] = true := by
  simp [existsF, statF, FUEL, resolveFollow]

theorem isdirF_lookup_some {fs : FS} {p : Path} (h : isdirF fs p = true)
    (hp : p ≠ []) : ∃ n, lookupFS fs p = some n := by
  unfold isdirF statF FUEL resolveFollow at h
  simp only [if_neg hp] at h
  cases hl : lookupFS fs p with
  | none => rw [hl] at h; cases h
  | some n => exact ⟨n, rfl⟩

theorem mem_prefixesUpTo {p q : Path} :
    q ∈ prefixesUpTo p ↔ q ≠ [] ∧ q <+: p := by
  constructor
  · exact prefixesUpTo_mem
  · rintro ⟨hq, hpre⟩
    unfold prefixesUpTo
    simp only [List.mem_map, List.mem_range]
    refine ⟨q.length - 1, ?_, ?_⟩
    · have h1 : q.length ≤ p.length := hpre.length_le
      have h2 : q.length ≠ 0 := by simpa using hq
      omega
    · have h2 : q.length ≠ 0 := by simpa using hq
      have : q.length - 1 + 1 = q.length := by omega
      rw [this, ← List.prefix_iff_eq_take.mp hpre]

/-- Package the well-formedness obligations in a decidable form. -/
theorem WFfs_of_all {fs : FS}
    (h1 : (fs.map Prod.fst).Nodup)
    (h2 : ∀ e ∈ fs, e.1 ≠ [] ∧ ∀ q ∈ prefixesUpTo e.1, q ≠ e.1 →
      lookupFS fs q = some Node.dir) : WFfs fs := by
  refine ⟨h1, fun e he => ⟨(h2 e he).1, fun q hq hpre hne => ?_⟩⟩
  exact (h2 e he).2 q (mem_prefixesUpTo.mpr ⟨hq, hpre⟩) hne

theorem create_parent_dirs_noop {fs : FS} {p : Path}
    (h : dirname p = [] ∨ existsF fs (dirname p) = true) :
    create_parent_dirs fs p = (true, fs) := by
  unfold create_parent_dirs
  rcases h with h | h
  · rw [if_pos h]
  · by_cases h1 : dirname p = []
    · rw [if_pos h1]
    · rw [if_neg h1, if_pos h]

theorem create_parent_dirs_preserves_self (fs : FS) (p : Path) :
    lookupFS (create_parent_dirs fs p).2 p = lookupFS fs p := by
  by_cases hc : lookupFS (create_parent_dirs fs p).2 p = lookupFS fs p
  · exact hc
  · obtain ⟨hne, hpre, -, -⟩ := create_parent_dirs_changes hc
    exfalso
    have h1 : p.length ≤ (dirname p).length := hpre.length_le
    have h2 : (dirname p).length = p.length - 1 := by
      simp [dirname]
    have h3 : p.length ≠ 0 := by simpa using hne
    omega

theorem create_parent_dirs_preserves_root (fs : FS) (p : Path) :
    lookupFS (create_parent_dirs fs p).2 [] = lookupFS fs [] := by
  by_cases hc : lookupFS (create_parent_dirs fs p).2 [] = lookupFS fs []
  · exact hc
  · exact absurd rfl (create_parent_dirs_changes hc).1

/-- A nonempty strict prefix of a stored key is a directory (well-formed
filesystems only hold nodes at canonical paths). -/
theorem WFfs.dir_of_strict {fs : FS} (hWF : WFfs fs) {p q : Path} {n : Node}
    (hp : lookupFS fs p = some n) (hq : q ≠ []) (hpre : q <+: p)
    (hne : q ≠ p) : lookupFS fs q = some Node.dir :=
  (hWF.2 (p, n) (lookupFS_mem hp)).2 q hq hpre hne

theorem WFfs.key_ne_nil {fs : FS} (hWF : WFfs fs) {p : Path} {n : Node}
    (hp : lookupFS fs p = some n) : p ≠ [] :=
  (hWF.2 (p, n) (lookupFS_mem hp)).1

theorem not_prefix_dirname {p : Path} (hp : p ≠ []) : ¬ p <+: dirname p := by
  intro h
  have h1 := h.length_le
  have h2 : p.length ≠ 0 := by simpa using hp
  simp only [dirname, List.length_dropLast] at h1
  omega

theorem WFfs.dirname_dir {fs : FS} (hWF : WFfs fs) {p : Path} {n : Node}
    (hp : lookupFS fs p = some n) (hd : dirname p ≠ []) :
    lookupFS fs (dirname p) = some Node.dir := by
  refine hWF.dir_of_strict hp hd (List.dropLast_prefix p) ?_
  intro hq
  exact not_prefix_dirname (hWF.key_ne_nil hp) (by rw [hq])

theorem WFfs.parent_ok {fs : FS} (hWF : WFfs fs) {p : Path} {n : Node}
    (hp : lookupFS fs p = some n) :
    dirname p = [] ∨ existsF fs (dirname p) = true := by
  by_cases hd : dirname p = []
  · exact Or.inl hd
  · exact Or.inr (existsF_of_dir (hWF.dirname_dir hp hd))

/-! ## Error kinds of the tail stages -/

/-- The error kinds that only the post-copy tail (deletion onwards) can
produce. -/
def tailErr (e : MErr) : Prop :=
  e = MErr.removeOrig ∨ e = MErr.storageCreate ∨ e = MErr.linkParent ∨
    e = MErr.linkCreate ∨ e = MErr.linkMissing ∨ e = MErr.linkNotLink ∨
    e = MErr.linkWrongTarget

theorem migrateLink_err {fs fsE : FS} {no ns : Path} {e : MErr}
    (h : migrateLink fs no ns = (Except.error e, fsE)) : tailErr e := by
  unfold migrateLink at h
  split at h
  · simp only [Prod.mk.injEq, Except.error.injEq] at h
    exact Or.inr (Or.inr (Or.inr (Or.inl h.1.symm)))
  · split at h
    · split at h
      · split at h
        · split at h
          · exact absurd h (by simp)
          · simp only [Prod.mk.injEq, Except.error.injEq] at h
            exact Or.inr (Or.inr (Or.inr (Or.inr (Or.inr (Or.inr h.1.symm)))))
        · simp only [Prod.mk.injEq, Except.error.injEq] at h
          exact Or.inr (Or.inr (Or.inr (Or.inr (Or.inr (Or.inr h.1.symm)))))
      · simp only [Prod.mk.injEq, Except.error.injEq] at h
        exact Or.inr (Or.inr (Or.inr (Or.inr (Or.inr (Or.inl h.1.symm)))))
    · simp only [Prod.mk.injEq, Except.error.injEq] at h
      exact Or.inr (Or.inr (Or.inr (Or.inr (Or.inl h.1.symm))))

theorem migrateLinkParent_err {fs fsE : FS} {no ns : Path} {e : MErr}
    (h : migrateLinkParent fs no ns = (Except.error e, fsE)) : tailErr e := by
  unfold migrateLinkParent at h
  split at h
  · simp only [Prod.mk.injEq, Except.error.injEq] at h
    exact Or.inr (Or.inr (Or.inl h.1.symm))
  · exact migrateLink_err h

theorem migrateEnsureAndLink_err {fs fsE : FS} {no ns : Path}
    {performCopy : Bool} {e : MErr}
    (h : migrateEnsureAndLink fs no ns performCopy = (Except.error e, fsE)) :
    tailErr e := by
  unfold migrateEnsureAndLink at h
  split at h
  · simp only [Prod.mk.injEq, Except.error.injEq] at h
    exact Or.inr (Or.inl h.1.symm)
  · exact migrateLinkParent_err h

theorem migrateDelete_err {fs fsE : FS} {no ns : Path}
    {origExistedAsDir performCopy : Bool} {e : MErr}
    (h : migrateDelete fs no ns origExistedAsDir performCopy =
      (Except.error e, fsE)) : tailErr e := by
  unfold migrateDelete at h
  split at h
  · split at h
    · simp only [Prod.mk.injEq, Except.error.injEq] at h
      exact Or.inl h.1.symm
    · split at h
      · simp only [Prod.mk.injEq, Except.error.injEq] at h
        exact Or.inl h.1.symm
      · exact migrateEnsureAndLink_err h
  · exact migrateEnsureAndLink_err h

/-- The three abort kinds of the copy phase. -/
def copyErr (e : MErr) : Prop :=
  e = MErr.copyRaised ∨ (∃ L, e = MErr.partialCopy L) ∨
    e = MErr.validationMismatch

theorem copyErr_not_tailErr {e : MErr} (h : copyErr e) : ¬ tailErr e := by
  rcases h with rfl | ⟨L, rfl⟩ | rfl <;>
    rintro (h | h | h | h | h | h | h) <;> cases h

/-- A copy-phase abort leaves a state reachable from the input by
storage-subtree mutation only. -/
theorem migrateCopyPhase_err_scoped {locked : List Path} {fs fsE : FS}
    {no ns : Path} {skip : Bool} {e : MErr}
    (h : migrateCopyPhase locked fs no ns skip = (Except.error e, fsE))
    (he : copyErr e) : ScopedTo ns fs fsE := by
  unfold migrateCopyPhase at h
  have hsc := copy_robust_scoped locked fs no ns
  split at h
  next fs3 junk hc =>
    rw [hc] at hsc
    simp only [Prod.mk.injEq, Except.error.injEq] at h
    rw [← h.2]
    exact hsc
  next fs3 failed hc =>
    rw [hc] at hsc
    split at h
    · split at h
      · simp only [Prod.mk.injEq, Except.error.injEq] at h
        rw [← h.2]
        exact hsc
      · exact absurd (migrateDelete_err h) (copyErr_not_tailErr he)
    · simp only [Prod.mk.injEq, Except.error.injEq] at h
      rw [← h.2]
      exact hsc

/-- A copy-phase abort (copy failure, partial-copy failure, or validation
mismatch) leaves the node stored at the live path exactly as it was: the
original is never deleted after such a failure. -/
theorem migrate_copy_errors_preserve {locked : List Path} {fs fsE : FS}
    {orig storage : RawPath} {skip : Bool} {e : MErr}
    (hWF : WFfs fs)
    (h : migrate_and_link_directory locked fs orig storage skip =
      (Except.error e, fsE))
    (he : copyErr e) :
    lookupFS fsE (normalize_path orig) =
      lookupFS fs (normalize_path orig) := by
  unfold migrate_and_link_directory migrateMain at h
  split at h
  · exact absurd h (by simp)
  next hearly =>
    split at h
    · -- samePath
      simp only [Prod.mk.injEq, Except.error.injEq] at h
      exfalso
      rcases he with he | ⟨L, he⟩ | he <;> rw [← h.1] at he <;> cases he
    next hne =>
      split at h
      next fs1 hc1 =>
        -- first create_parent_dirs failed
        simp only [Prod.mk.injEq, Except.error.injEq] at h
        exfalso
        rcases he with he | ⟨L, he⟩ | he <;> rw [← h.1] at he <;> cases he
      next fs1 hc1 =>
        split at h
        next fs2 hc2 =>
          simp only [Prod.mk.injEq, Except.error.injEq] at h
          exfalso
          rcases he with he | ⟨L, he⟩ | he <;> rw [← h.1] at he <;> cases he
        next fs2 hc2 =>
          split at h
          · -- storageNotDir
            simp only [Prod.mk.injEq, Except.error.injEq] at h
            exfalso
            rcases he with he | ⟨L, he⟩ | he <;> rw [← h.1] at he <;> cases he
          next hsnd =>
            split at h
            next hcopy =>
              -- the copy phase ran and aborted
              have hscoped := migrateCopyPhase_err_scoped h he
              have hsplit : isdirF fs (normalize_path orig) = true ∧
                  existsF fs2 (normalize_path storage) = false := by
                simpa using hcopy
              have hdir := hsplit.1
              have hnex := hsplit.2
              have hnsne : (normalize_path storage) ≠ [] := by
                intro hns
                rw [hns, existsF_root] at hnex
                cases hnex
              by_cases hno : (normalize_path orig) = []
              · -- the live path is the root: nothing ever stores a node there
                rw [hno]
                have e1 : lookupFS fs1 [] = lookupFS fs [] := by
                  have := create_parent_dirs_preserves_root fs (normalize_path storage)
                  rw [hc1] at this
                  exact this
                have e2 : lookupFS fs2 [] = lookupFS fs1 [] := by
                  have := create_parent_dirs_preserves_root fs1 (normalize_path orig)
                  rw [hc2] at this
                  exact this
                rw [hscoped.preserves_root hnsne, e2, e1]
              · obtain ⟨n, hn⟩ := isdirF_lookup_some hdir hno
                have h1 : lookupFS fs1 (normalize_path orig) = some n := by
                  have := create_parent_dirs_preserves_some (normalize_path storage) hn
                  rw [hc1] at this
                  exact this
                have h2 : lookupFS fs2 (normalize_path orig) = some n := by
                  have := create_parent_dirs_preserves_some (normalize_path orig) h1
                  rw [hc2] at this
                  exact this
                have hnpre : ¬ (normalize_path storage) <+: (normalize_path orig) := by
                  intro hpre
                  have hdirns : lookupFS fs (normalize_path storage) = some Node.dir :=
                    hWF.dir_of_strict hn hnsne hpre (fun hq => hne hq.symm)
                  have g1 : lookupFS fs1 (normalize_path storage) = some Node.dir := by
                    have := create_parent_dirs_preserves_some (normalize_path storage) hdirns
                    rw [hc1] at this
                    exact this
                  have g2 : lookupFS fs2 (normalize_path storage) = some Node.dir := by
                    have := create_parent_dirs_preserves_some (normalize_path orig) g1
                    rw [hc2] at this
                    exact this
                  rw [existsF_of_dir g2] at hnex
                  cases hnex
                rw [hscoped.preserves_some h2 hnpre, hn]
            · -- no copy phase: the tail produced the error, contradiction
              exact absurd (migrateDelete_err h) (copyErr_not_tailErr he)

/-- With the skip-validation flag set, the run can never abort with a
validation mismatch: the flag disables exactly that check. -/
theorem migrate_skip_no_validation {locked : List Path} {fs fsE : FS}
    {orig storage : RawPath} :
    migrate_and_link_directory locked fs orig storage true ≠
      (Except.error MErr.validationMismatch, fsE) := by
  intro h
  have hne : ¬ tailErr MErr.validationMismatch := by
    rintro (h | h | h | h | h | h | h) <;> cases h
  unfold migrate_and_link_directory migrateMain at h
  split at h
  · exact absurd h (by simp)
  · split at h
    · simp at h
    · split at h
      · simp at h
      · split at h
        · simp at h
        · split at h
          · simp at h
          · split at h
            · -- copy phase with skip = true
              unfold migrateCopyPhase at h
              split at h
              · simp at h
              · split at h
                · split at h
                  next hval =>
                    simp only [Bool.not_true, Bool.false_and] at hval
                    cases hval
                  · exact absurd (migrateDelete_err h) hne
                · simp at h
            · exact absurd (migrateDelete_err h) hne

/-! ## Success-path inversion -/

theorem symlinkAt_ok {fs1 fs' : FS} {l : Path} {t : RawPath}
    (h : symlinkAt fs1 l t = (true, fs')) :
    lookupFS fs' l = some (Node.symlink t) := by
  unfold symlinkAt at h
  split at h
  · exact absurd h (by simp)
  · split at h
    · simp only [Prod.mk.injEq, true_and] at h
      subst h
      exact lookupFS_insert_self _ _ _
    · exact absurd h (by simp)

theorem create_symlink_ok {fs fs' : FS} {l : Path} {t : RawPath}
    (h : create_directory_symlink fs l t = (true, fs')) :
    lookupFS fs' l = some (Node.symlink t) :=
  symlinkAt_ok h

theorem migrateLink_ok {fs fs' : FS} {no ns : Path}
    (h : migrateLink fs no ns = (Except.ok (), fs')) :
    lookupFS fs' no = some (Node.symlink ⟨true, normSegs ns⟩) ∧
      finalLinkResolve fs' no = some ns := by
  unfold migrateLink at h
  split at h
  · exact absurd h (by simp)
  next fs7 hcs =>
    split at h
    · split at h
      · split at h
        next abs hres =>
          split at h
          next habs =>
            simp only [Prod.mk.injEq, and_true] at h
            obtain ⟨-, rfl⟩ := h
            exact ⟨create_symlink_ok hcs, by rw [hres, habs]⟩
          · exact absurd h (by simp)
        · exact absurd h (by simp)
      · exact absurd h (by simp)
    · exact absurd h (by simp)

theorem migrateLinkParent_ok {fs fs' : FS} {no ns : Path}
    (h : migrateLinkParent fs no ns = (Except.ok (), fs')) :
    ∃ fs6, migrateLink fs6 no ns = (Except.ok (), fs') := by
  unfold migrateLinkParent at h
  split at h
  · exact absurd h (by simp)
  · exact ⟨_, h⟩

theorem migrateEnsureAndLink_ok {fs fs' : FS} {no ns : Path}
    {performCopy : Bool}
    (h : migrateEnsureAndLink fs no ns performCopy = (Except.ok (), fs')) :
    ∃ fs6, migrateLink fs6 no ns = (Except.ok (), fs') := by
  unfold migrateEnsureAndLink at h
  split at h
  · exact absurd h (by simp)
  · exact migrateLinkParent_ok h

theorem migrateDelete_ok {fs fs' : FS} {no ns : Path}
    {origExistedAsDir performCopy : Bool}
    (h : migrateDelete fs no ns origExistedAsDir performCopy =
      (Except.ok (), fs')) :
    ∃ fs6, migrateLink fs6 no ns = (Except.ok (), fs') := by
  unfold migrateDelete at h
  split at h
  · split at h
    · exact absurd h (by simp)
    · split at h
      · exact absurd h (by simp)
      · exact migrateEnsureAndLink_ok h
  · exact migrateEnsureAndLink_ok h

theorem migrateCopyPhase_ok {locked : List Path} {fs fs' : FS}
    {no ns : Path} {skipValidation : Bool}
    (h : migrateCopyPhase locked fs no ns skipValidation =
      (Except.ok (), fs')) :
    ∃ fs6, migrateLink fs6 no ns = (Except.ok (), fs') := by
  unfold migrateCopyPhase at h
  split at h
  · exact absurd h (by simp)
  · split at h
    · split at h
      · exact absurd h (by simp)
      · exact migrateDelete_ok h
    · exact absurd h (by simp)

/-- Inversion of a successful run: either the early already-aligned check
fired (and nothing changed), or the run ended at steps 7–8 and left a fresh
absolute symlink at the live path whose parent-relative resolution is
exactly the normalized storage path. -/
theorem migrate_ok {locked : List Path} {fs fs' : FS} {orig storage : RawPath}
    {skipValidation : Bool}
    (h : migrate_and_link_directory locked fs orig storage skipValidation =
      (Except.ok (), fs')) :
    (earlyAlignedF fs (normalize_path orig) (normalize_path storage) = true ∧
        fs' = fs) ∨
      (lookupFS fs' (normalize_path orig) =
          some (Node.symlink ⟨true, normSegs (normalize_path storage)⟩) ∧
        finalLinkResolve fs' (normalize_path orig) =
          some (normalize_path storage)) := by
  unfold migrate_and_link_directory migrateMain at h
  split at h
  next hearly =>
    left
    simp only [Prod.mk.injEq, true_and] at h
    exact ⟨hearly, h.symm⟩
  next hearly =>
    right
    split at h
    · exact absurd h (by simp)
    · split at h
      · exact absurd h (by simp)
      · split at h
        · exact absurd h (by simp)
        · split at h
          · exact absurd h (by simp)
          · split at h
            · obtain ⟨fs6, h6⟩ := migrateCopyPhase_ok h
              exact migrateLink_ok h6
            · obtain ⟨fs6, h6⟩ := migrateDelete_ok h
              exact migrateLink_ok h6

/-! ## Helpers for the copy-loop analysis -/

theorem prefix_snoc_of_le {p l : Path} {y : Seg} (h : p <+: l ++ [y])
    (hle : p.length ≤ l.length) : p <+: l := by
  have hp := List.prefix_iff_eq_take.mp h
  rw [List.take_append_eq_append_take,
    show p.length - l.length = 0 from by omega] at hp
  simp only [List.take_zero, List.append_nil] at hp
  rw [hp]
  exact List.take_prefix _ _

theorem snocs_npfx {a b : Path} (h : ¬ a <+: b) (x y : Seg) :
    ¬ a ++ [x] <+: b ++ [y] := by
  intro hp
  apply h
  have hlen : a.length ≤ b.length := by
    have := hp.length_le
    simp only [List.length_append, List.length_cons, List.length_nil] at this
    omega
  exact prefix_snoc_of_le ((List.prefix_append a [x]).trans hp) hlen

theorem snoc_prefix_snoc {a : Path} {x y : Seg} (h : a ++ [x] <+: a ++ [y]) :
    x = y := by
  have := h.sublist.eq_of_length (by simp)
  simpa using this

theorem eraseFS_of_none {fs : FS} {p : Path} (h : lookupFS fs p = none) :
    eraseFS fs p = fs := by
  induction fs with
  | nil => rfl
  | cons e fs ih =>
    unfold lookupFS at h
    by_cases he : e.1 = p
    · rw [if_pos he] at h; cases h
    · rw [if_neg he] at h
      rw [eraseFS_cons, if_neg he, ih h]

theorem mem_childrenNames_of_lookup {fs : FS} {d : Path} {name : Seg}
    {n : Node} (h : lookupFS fs (d ++ [name]) = some n) :
    name ∈ childrenNames fs d := by
  unfold childrenNames
  rw [List.mem_dedup, List.mem_filterMap]
  refine ⟨(d ++ [name], n), lookupFS_mem h, ?_⟩
  rw [if_pos ⟨by simp [dirname], by simp⟩]
  simp

theorem childrenNames_nodup (fs : FS) (d : Path) :
    (childrenNames fs d).Nodup :=
  List.nodup_dedup _

/-- Fresh-directory creation below keys is impossible: a nonempty extension
of a directory key cannot be a key of a well-formed map whose lookup there
is `none`… (helper: a child path of `d` stored in the map forces `d` to be a
directory key). -/
theorem WFfs.parent_dir_of_child {fs : FS} (hWF : WFfs fs) {d : Path}
    {name : Seg} {n : Node} (h : lookupFS fs (d ++ [name]) = some n)
    (hd : d ≠ []) : lookupFS fs d = some Node.dir := by
  refine hWF.dir_of_strict h hd (List.prefix_append d [name]) ?_
  intro he
  have := congrArg List.length he
  simp at this

theorem copyItemDir_failed_mono (locked : List Path) (src dst : Path)
    (st : FS × List Path) (name : Seg) :
    ∃ ext, (copyItemDir locked src dst st name).2 = st.2 ++ ext := by
  unfold copyItemDir
  cases hs : statF (clearConflictFile st.1 (dst ++ [name])) (src ++ [name]) with
  | none => exact ⟨[src ++ [name]], rfl⟩
  | some r =>
    rcases r with ⟨srcR, n⟩
    dsimp only
    cases hc : copytreeF locked (clearConflictFile st.1 (dst ++ [name])) srcR
        (dst ++ [name]) with
    | mk b rest =>
      rcases rest with ⟨fs2, errs⟩
      cases b
      · exact ⟨[src ++ [name]], rfl⟩
      · cases errs
        · exact ⟨[], by simp⟩
        · exact ⟨[src ++ [name]], rfl⟩

theorem copyItemFile_failed_mono (locked : List Path) (src dst : Path)
    (st : FS × List Path) (name : Seg) :
    ∃ ext, (copyItemFile locked src dst st name).2 = st.2 ++ ext := by
  unfold copyItemFile
  by_cases hd : isdirF st.1 (dst ++ [name]) = true
  · rw [if_pos hd]
    cases hr : remove_directory_recursive st.1 (dst ++ [name]) with
    | mk b fs1 =>
      cases b
      · exact ⟨[src ++ [name]], rfl⟩
      · dsimp only
        cases hc : copy2F locked fs1 (src ++ [name]) (dst ++ [name]) with
        | mk b2 fs2 =>
          cases b2
          · exact ⟨[src ++ [name]], rfl⟩
          · exact ⟨[], by simp⟩
  · rw [if_neg hd]
    cases hc : copy2F locked st.1 (src ++ [name]) (dst ++ [name]) with
    | mk b2 fs2 =>
      cases b2
      · exact ⟨[src ++ [name]], rfl⟩
      · exact ⟨[], by simp⟩

theorem copyItemLink_failed_mono (src dst : Path)
    (st : FS × List Path) (name : Seg) :
    ∃ ext, (copyItemLink src dst st name).2 = st.2 ++ ext := by
  unfold copyItemLink
  cases hs : lookupFS (clearPath st.1 (dst ++ [name])) (src ++ [name]) with
  | none => exact ⟨[src ++ [name]], rfl⟩
  | some n =>
    cases n with
    | symlink t => exact ⟨[], by simp⟩
    | dir => exact ⟨[src ++ [name]], rfl⟩
    | file sz => exact ⟨[src ++ [name]], rfl⟩
    | other => exact ⟨[src ++ [name]], rfl⟩

/-- Each loop iteration only ever appends to the failed-items list. -/
theorem copyItem_failed_mono (locked : List Path) (src dst : Path)
    (st : FS × List Path) (name : Seg) :
    ∃ ext, (copyItem locked src dst st name).2 = st.2 ++ ext := by
  unfold copyItem
  by_cases h1 : isdirF st.1 (src ++ [name]) = true
  · rw [if_pos h1]
    exact copyItemDir_failed_mono locked src dst st name
  · rw [if_neg h1]
    by_cases h2 : isfileF st.1 (src ++ [name]) = true
    · rw [if_pos h2]
      exact copyItemFile_failed_mono locked src dst st name
    · rw [if_neg h2]
      by_cases h3 : islinkF st.1 (src ++ [name]) = true
      · rw [if_pos h3]
        exact copyItemLink_failed_mono src dst st name
      · rw [if_neg h3]
        exact ⟨[], by simp⟩

theorem copyFold_failed_mono (locked : List Path) (src dst : Path) :
    ∀ (names : List Seg) (st : FS × List Path),
      ∃ ext, (names.foldl (copyItem locked src dst) st).2 = st.2 ++ ext := by
  intro names
  induction names with
  | nil => exact fun st => ⟨[], by simp⟩
  | cons name rest ih =>
    intro st
    rw [List.foldl_cons]
    obtain ⟨e1, h1⟩ := copyItem_failed_mono locked src dst st name
    obtain ⟨e2, h2⟩ := ih (copyItem locked src dst st name)
    exact ⟨e1 ++ e2, by rw [h2, h1, List.append_assoc]⟩

/-- A stored node not below any iteration's destination survives the loop. -/
theorem copyFold_preserves_some (locked : List Path) (src dst : Path) :
    ∀ (names : List Seg) (st : FS × List Path) (p : Path) (n : Node),
      lookupFS st.1 p = some n → (∀ name ∈ names, ¬ dst ++ [name] <+: p) →
      lookupFS (names.foldl (copyItem locked src dst) st).1 p = some n := by
  intro names
  induction names with
  | nil => exact fun st p n h _ => h
  | cons name rest ih =>
    intro st p n h hn
    rw [List.foldl_cons]
    refine ih _ p n ?_ (fun n' hn' => hn n' (List.mem_cons_of_mem _ hn'))
    exact (copyItem_scoped locked src dst st name).preserves_some h
      (hn name (List.mem_cons_self _ _))

/-- Evaluation of one loop iteration on a regular-file source item whose
destination item does not exist: `copy2` fires, failing exactly when the
file is locked. -/
theorem copyItem_file_eval (locked : List Path) {src dst : Path}
    {st : FS × List Path} {name : Seg} {sz : Nat}
    (hfile : lookupFS st.1 (src ++ [name]) = some (Node.file sz))
    (hdst : lookupFS st.1 (dst ++ [name]) = none) :
    copyItem locked src dst st name =
      if (src ++ [name]) ∈ locked then (st.1, st.2 ++ [src ++ [name]])
      else (insertFS st.1 (dst ++ [name]) (Node.file sz), st.2) := by
  have hstat : statF st.1 (src ++ [name]) = some (src ++ [name], Node.file sz) :=
    statF_of_file hfile (by simp)
  have hdir : isdirF st.1 (src ++ [name]) = false := by
    simp [isdirF, hstat]
  have hfil : isfileF st.1 (src ++ [name]) = true := by
    simp [isfileF, hstat]
  have hddir : isdirF st.1 (dst ++ [name]) = false :=
    isdirF_of_none hdst (by simp)
  unfold copyItem
  rw [if_neg (by rw [hdir]; exact Bool.false_ne_true), if_pos hfil]
  unfold copyItemFile
  rw [if_neg (by rw [hddir]; exact Bool.false_ne_true)]
  unfold copy2F
  rw [hstat]
  dsimp only
  by_cases hl : (src ++ [name]) ∈ locked
  · rw [if_pos hl, if_pos hl]
  · rw [if_neg hl, if_neg hl]

/-- The main loop argument: with source and destination unrelated and every
destination item initially absent, every unlocked regular-file child of the
source ends up copied at the destination, and every locked regular-file
child of the source ends up in the failed-items list — the walk continues
past failures. -/
theorem copyFold_spec (locked : List Path) {src dst : Path}
    (hsd1 : ¬ src <+: dst) (hsd2 : ¬ dst <+: src) :
    ∀ (names : List Seg) (st : FS × List Path), names.Nodup →
      (∀ name ∈ names, lookupFS st.1 (dst ++ [name]) = none) →
      (∀ name ∈ names, ∀ sz,
          lookupFS st.1 (src ++ [name]) = some (Node.file sz) →
          (src ++ [name]) ∉ locked →
          lookupFS (names.foldl (copyItem locked src dst) st).1 (dst ++ [name]) =
            some (Node.file sz)) ∧
      (∀ name ∈ names, ∀ sz,
          lookupFS st.1 (src ++ [name]) = some (Node.file sz) →
          (src ++ [name]) ∈ locked →
          (src ++ [name]) ∈ (names.foldl (copyItem locked src dst) st).2) := by
  intro names
  induction names with
  | nil =>
    intro st _ _
    exact ⟨fun name h => absurd h (List.not_mem_nil name),
      fun name h => absurd h (List.not_mem_nil name)⟩
  | cons name rest ih =>
    intro st hnodup hdst
    obtain ⟨hnn, hrest_nodup⟩ := List.nodup_cons.mp hnodup
    have hscope := copyItem_scoped locked src dst st name
    -- source items of the remaining names are untouched by this iteration
    have hsrc_pres : ∀ name' ∈ rest,
        lookupFS (copyItem locked src dst st name).1 (src ++ [name']) =
          lookupFS st.1 (src ++ [name']) := by
      intro name' _
      by_cases hc : lookupFS (copyItem locked src dst st name).1 (src ++ [name']) =
          lookupFS st.1 (src ++ [name'])
      · exact hc
      · rcases hscope _ hc with hu | ⟨_, hu, _, _⟩
        · exact absurd hu (snocs_npfx hsd2 name name')
        · exact absurd hu (snocs_npfx hsd1 name' name)
    -- destination items of the remaining names stay absent
    have hdst_pres : ∀ name' ∈ rest,
        lookupFS (copyItem locked src dst st name).1 (dst ++ [name']) = none := by
      intro name' hm
      by_cases hc : lookupFS (copyItem locked src dst st name).1 (dst ++ [name']) =
          lookupFS st.1 (dst ++ [name'])
      · rw [hc]
        exact hdst name' (List.mem_cons_of_mem _ hm)
      · rcases hscope _ hc with hu | ⟨_, hu, _, _⟩
        · exact absurd (snoc_prefix_snoc hu ▸ hm) hnn
        · exact absurd ((snoc_prefix_snoc hu).symm ▸ hm) hnn
    constructor
    · intro name' hmem sz hfile hnlock
      rw [List.foldl_cons]
      rcases List.mem_cons.mp hmem with rfl | hmem'
      · -- the head item itself: copy2 succeeds, and the copy survives the rest
        have heval := copyItem_file_eval locked hfile
          (hdst name' (List.mem_cons_self _ _))
        rw [if_neg hnlock] at heval
        refine copyFold_preserves_some locked src dst rest _ _ _ ?_ ?_
        · rw [heval]
          exact lookupFS_insert_self _ _ _
        · intro n' hn' hpre
          exact hnn ((snoc_prefix_snoc hpre) ▸ hn')
      · exact (ih _ hrest_nodup hdst_pres).1 name' hmem' sz
          (by rw [hsrc_pres name' hmem', hfile]) hnlock
    · intro name' hmem sz hfile hlock
      rw [List.foldl_cons]
      rcases List.mem_cons.mp hmem with rfl | hmem'
      · -- the head item itself: copy2 fails, the item is recorded
        have heval := copyItem_file_eval locked hfile
          (hdst name' (List.mem_cons_self _ _))
        rw [if_pos hlock] at heval
        obtain ⟨ext, hext⟩ :=
          copyFold_failed_mono locked src dst rest (copyItem locked src dst st name')
        rw [hext, heval]
        exact List.mem_append_left _ (List.mem_append_right _ (List.mem_singleton.mpr rfl))
      · exact (ih _ hrest_nodup hdst_pres).2 name' hmem' sz
          (by rw [hsrc_pres name' hmem', hfile]) hlock

theorem prefixesUpTo_snoc {p : Path} (hp : p ≠ []) :
    prefixesUpTo p = prefixesUpTo (dirname p) ++ [p] := by
  unfold prefixesUpTo
  have h0 : p.length ≠ 0 := by simpa using hp
  have hlen : p.length = (dirname p).length + 1 := by
    simp only [dirname, List.length_dropLast]
    omega
  rw [hlen, List.range_succ, List.map_append]
  congr 1
  · apply List.map_congr_left
    intro i hi
    rw [List.mem_range] at hi
    rw [show (dirname p).take (i + 1) = p.take (i + 1) from by
      rw [dirname, List.dropLast_eq_take, List.take_take]
      congr 1
      simp only [dirname, List.length_dropLast] at hi
      omega]
  · simp only [List.map_cons, List.map_nil]
    rw [show (dirname p).length + 1 = p.length from hlen.symm, List.take_length]

theorem makedirsStep_fold_noop {fs : FS} :
    ∀ l : List Path, (∀ q ∈ l, isdirF fs q = true) →
      l.foldl makedirsStep (true, fs) = (true, fs) := by
  intro l
  induction l with
  | nil => intro _; rfl
  | cons q l ih =>
    intro h
    rw [List.foldl_cons,
      show makedirsStep (true, fs) q = (true, fs) from by
        unfold makedirsStep
        dsimp only
        rw [if_pos (h q (List.mem_cons_self _ _))]]
    exact ih fun q' hq' => h q' (List.mem_cons_of_mem _ hq')

/-- `os.makedirs` on a path whose parents are all existing real directories
and which itself does not exist: it creates exactly the one leaf
directory. -/
theorem makedirsF_fresh {fs : FS} {p : Path} (hp : p ≠ [])
    (hchain : ∀ q, q ≠ [] → q <+: p → q ≠ p → lookupFS fs q = some Node.dir)
    (hnone : lookupFS fs p = none) :
    makedirsF fs p = (true, insertFS fs p Node.dir) := by
  rw [makedirsF_eq_fold, prefixesUpTo_snoc hp, List.foldl_append]
  rw [makedirsStep_fold_noop (prefixesUpTo (dirname p)) (fun q hq => by
    obtain ⟨hq1, hq2⟩ := prefixesUpTo_mem hq
    refine isdirF_of_dir (hchain q hq1 (hq2.trans (List.dropLast_prefix p)) ?_)
    intro he
    have h1 := hq2.length_le
    have h0 : p.length ≠ 0 := by simpa using hp
    simp only [dirname, List.length_dropLast] at h1
    have h2 := congrArg List.length he
    omega)]
  simp only [List.foldl_cons, List.foldl_nil]
  unfold makedirsStep
  dsimp only
  rw [if_neg (by rw [isdirF_of_none hnone hp]; exact Bool.false_ne_true), hnone]

theorem childrenNames_cons_other {fs : FS} {e : Path × Node} {d : Path}
    (h : ¬ (dirname e.1 = d ∧ e.1 ≠ [])) :
    childrenNames (e :: fs) d = childrenNames fs d := by
  unfold childrenNames
  rw [List.filterMap_cons, if_neg h]

theorem lookupFS_cons_ne {fs : FS} {e : Path × Node} {q : Path}
    (h : ¬ e.1 = q) : lookupFS (e :: fs) q = lookupFS fs q := by
  show (if e.1 = q then some e.2 else lookupFS fs q) = lookupFS fs q
  rw [if_neg h]

/-- The storage-wins trace: when the live path is an ordinary directory, the
storage path already exists as a directory, and the two are unrelated
(neither is a prefix of the other), the run succeeds by deleting the live
directory without any copy and replacing it with a fresh absolute symlink;
nothing else changes. -/
theorem migrateMain_storage_wins {locked : List Path} {fs : FS}
    {no ns : Path} {skip : Bool}
    (hWF : WFfs fs)
    (hno : lookupFS fs no = some Node.dir)
    (hns : lookupFS fs ns = some Node.dir)
    (hnn1 : ¬ no <+: ns)
    (hgood : normSegs ns = ns) :
    migrateMain locked fs no ns skip =
      (Except.ok (),
        insertFS (eraseTreeFS fs no) no (Node.symlink ⟨true, normSegs ns⟩)) := by
  have hnoe : no ≠ [] := hWF.key_ne_nil hno
  have hneq : ¬ no = ns := fun h => hnn1 (h ▸ List.prefix_refl no)
  have hearly : earlyAlignedF fs no ns = false := by
    unfold earlyAlignedF
    rw [hno]
  have hnp1 : create_parent_dirs fs ns = (true, fs) :=
    create_parent_dirs_noop (hWF.parent_ok hns)
  have hnp2 : create_parent_dirs fs no = (true, fs) :=
    create_parent_dirs_noop (hWF.parent_ok hno)
  have hdns : isdirF fs ns = true := isdirF_of_dir hns
  have hdno : isdirF fs no = true := isdirF_of_dir hno
  have hex : existsF fs ns = true := existsF_of_dir hns
  have hrm : remove_directory_recursive fs no = (true, eraseTreeFS fs no) := by
    unfold remove_directory_recursive
    have hlink : islinkF fs no = false := by
      unfold islinkF
      rw [hno]
    rw [if_neg (by rw [hlink]; exact Bool.false_ne_true), hno]
  have hlook4 : lookupFS (eraseTreeFS fs no) no = none :=
    lookupFS_eraseTree_under fs no no (List.prefix_refl no)
  have hex4 : existsF (eraseTreeFS fs no) no = false :=
    existsF_of_none hlook4 hnoe
  have hns4 : lookupFS (eraseTreeFS fs no) ns = some Node.dir := by
    rw [lookupFS_eraseTree_not_under fs no ns hnn1, hns]
  have hdns4 : isdirF (eraseTreeFS fs no) ns = true := isdirF_of_dir hns4
  have hpdir4 : isdirF (eraseTreeFS fs no) (dirname no) = true := by
    by_cases hd : dirname no = []
    · rw [hd]
      exact isdirF_root _
    · refine isdirF_of_dir ?_
      rw [lookupFS_eraseTree_not_under fs no (dirname no) (not_prefix_dirname hnoe)]
      exact hWF.dirname_dir hno hd
  have hlex4 : lexistsF (eraseTreeFS fs no) no = false := by
    simp [lexistsF, hnoe, hlook4]
  have hclear : clearPath (eraseTreeFS fs no) no = eraseTreeFS fs no := by
    unfold clearPath
    rw [if_neg (by rw [hlex4]; exact Bool.false_ne_true)]
  have hcs : create_directory_symlink (eraseTreeFS fs no) no
      ⟨true, normSegs ns⟩ =
      (true, insertFS (eraseTreeFS fs no) no (Node.symlink ⟨true, normSegs ns⟩)) := by
    unfold create_directory_symlink symlinkAt
    rw [hclear, if_neg (by rw [hlex4]; exact Bool.false_ne_true), if_pos hpdir4]
  unfold migrateMain
  rw [if_neg (by rw [hearly]; exact Bool.false_ne_true), if_neg hneq, hnp1]
  dsimp only
  rw [hnp2]
  dsimp only
  rw [if_neg (by rw [hex, hdns]; simp)]
  rw [if_neg (by rw [hdno, hex]; simp)]
  unfold migrateDelete
  rw [if_pos hdno, hrm]
  dsimp only
  rw [if_neg (by rw [hex4]; exact Bool.false_ne_true)]
  unfold migrateEnsureAndLink
  rw [show (if (!false && !isdirF (eraseTreeFS fs no) ns) = true
      then makedirsF (eraseTreeFS fs no) ns else (true, eraseTreeFS fs no)) =
      (true, eraseTreeFS fs no) from by rw [if_neg (by rw [hdns4]; simp)]]
  dsimp only
  unfold migrateLinkParent
  rw [show (if ¬dirname no = [] ∧ existsF (eraseTreeFS fs no) (dirname no) = false
      then makedirsF (eraseTreeFS fs no) (dirname no)
      else (true, eraseTreeFS fs no)) = (true, eraseTreeFS fs no) from by
    refine if_neg ?_
    rintro ⟨hd, hexf⟩
    rw [show existsF (eraseTreeFS fs no) (dirname no) = true from by
      by_cases hdd : dirname no = []
      · exact absurd hdd hd
      · exact existsF_of_dir (by
          rw [lookupFS_eraseTree_not_under fs no (dirname no)
            (not_prefix_dirname hnoe)]
          exact hWF.dirname_dir hno hdd)] at hexf
    cases hexf]
  dsimp only
  unfold migrateLink
  rw [hcs]
  dsimp only
  have hins := lookupFS_insert_self (eraseTreeFS fs no) no
    (Node.symlink ⟨true, normSegs ns⟩)
  rw [if_pos (by simp [lexistsF, hins])]
  rw [if_pos (by unfold islinkF; rw [hins])]
  rw [show finalLinkResolve
      (insertFS (eraseTreeFS fs no) no (Node.symlink ⟨true, normSegs ns⟩)) no =
      some (normSegs (normSegs ns)) from by
    unfold finalLinkResolve
    rw [hins]
    rfl]
  dsimp only
  rw [if_pos (show normSegs (normSegs ns) = ns from by rw [hgood, hgood])]

/-! ## Counterexample and code-bug evaluations (closed, concrete runs) -/

/-- C1 counterexample.  The claim says that whenever the live path exists as
an ordinary directory, a `copyTree` into the storage path and a validation
always happen before the original directory is deleted.  Concretely: live
path `/a` is an ordinary directory holding the 5-byte file `/a/f`, and the
storage path `/b` already exists as a directory.  The run succeeds, yet the
file `f` was never copied to `/b/f` and the original directory (with its
file) was deleted anyway — the code skips the copy entirely whenever the
storage path already exists, destroying the live content without a copy. -/
theorem C1_counterexample :
    migrate_and_link_directory []
        [(["a"], Node.dir), (["a","f"], Node.file 5), (["b"], Node.dir)]
        ⟨true, ["a"]⟩ ⟨true, ["b"]⟩ false =
      (Except.ok (), [(["a"], Node.symlink ⟨true, ["b"]⟩), (["b"], Node.dir)]) ∧
    lookupFS
        (migrate_and_link_directory []
          [(["a"], Node.dir), (["a","f"], Node.file 5), (["b"], Node.dir)]
          ⟨true, ["a"]⟩ ⟨true, ["b"]⟩ false).2 ["b","f"] = none ∧
    lookupFS
        (migrate_and_link_directory []
          [(["a"], Node.dir), (["a","f"], Node.file 5), (["b"], Node.dir)]
          ⟨true, ["a"]⟩ ⟨true, ["b"]⟩ false).2 ["a","f"] = none :=
  ⟨rfl, rfl, rfl⟩

/-- C4 counterexample.  The claim says that whenever the storage path exists
as a plain file, the alignment fails with `ConflictError`.  Concretely: the
storage path `/s` is a 3-byte plain file and the live path `/l` is a symlink
whose target is `/s`.  The run returns success (the early already-aligned
check fires before the storage-path type check), so no `ConflictError`
(`FileExistsError`) is raised. -/
theorem C4_counterexample :
    migrate_and_link_directory []
        [(["l"], Node.symlink ⟨true, ["s"]⟩), (["s"], Node.file 3)]
        ⟨true, ["l"]⟩ ⟨true, ["s"]⟩ false =
      (Except.ok (),
        [(["l"], Node.symlink ⟨true, ["s"]⟩), (["s"], Node.file 3)]) :=
  rfl

/-- C6 counterexample.  The claim says that after every successful run,
resolving the live-path link's stored target — a relative target against the
link's own parent directory — yields exactly the normalized storage path.
Concretely: the live path `/d/l` is a pre-existing symlink with the relative
raw target `x` and the storage path is `/x`.  The early already-aligned
check resolves `x` against the working directory (`os.path.abspath`), gets
`/x`, and returns success without touching anything; but resolving the
stored target against the link's parent directory — as the final validation
and the claim do — yields `/d/x`, not the storage path `/x`. -/
theorem C6_counterexample :
    migrate_and_link_directory []
        [(["d"], Node.dir), (["d","l"], Node.symlink ⟨false, ["x"]⟩),
         (["x"], Node.dir)]
        ⟨true, ["d","l"]⟩ ⟨true, ["x"]⟩ false =
      (Except.ok (),
        [(["d"], Node.dir), (["d","l"], Node.symlink ⟨false, ["x"]⟩),
         (["x"], Node.dir)]) ∧
    finalLinkResolve
        [(["d"], Node.dir), (["d","l"], Node.symlink ⟨false, ["x"]⟩),
         (["x"], Node.dir)] ["d","l"] = some ["d","x"] ∧
    (["d","x"] : Path) ≠ ["x"] :=
  ⟨rfl, rfl, by decide⟩

/-- C7 (code bug).  The claim — matching the source's own dedicated
symlink-copying branch and its `symlinks=True` flag — says a symlink entry
of the source directory is recreated at the destination as a symlink with
the same raw target and is never dereferenced.  Concretely: source `/s`
holds the symlink `ln` whose target `/t` is an existing 4-byte file.
Because `os.path.isfile` (which follows links) is tested before
`os.path.islink`, the copy takes the `copy2` branch and materializes a
4-byte regular file at `/d/ln`; the symlink-recreation branch is
unreachable for any link whose target exists. -/
theorem C7_code_eval :
    copy_directory_contents_robust []
        [(["s"], Node.dir), (["s","ln"], Node.symlink ⟨true, ["t"]⟩),
         (["t"], Node.file 4)]
        ["s"] ["d"] =
      (true,
        [(["d","ln"], Node.file 4), (["d"], Node.dir),
         (["s"], Node.dir), (["s","ln"], Node.symlink ⟨true, ["t"]⟩),
         (["t"], Node.file 4)],
        []) ∧
    lookupFS
        (copy_directory_contents_robust []
          [(["s"], Node.dir), (["s","ln"], Node.symlink ⟨true, ["t"]⟩),
           (["t"], Node.file 4)]
          ["s"] ["d"]).2.1 ["d","ln"] = some (Node.file 4) :=
  ⟨rfl, rfl⟩

/-- C8 counterexample.  The claim says every invocation whose normalized
live path equals its normalized storage path fails with `InvalidRequest`
(`ValueError`), regardless of what exists at that path.  Concretely: `/p` is
a symlink whose stored target is `/p` itself, and both arguments are `/p`.
The early already-aligned check (which runs before the equality check)
matches and the run returns success instead of raising. -/
theorem C8_counterexample :
    migrate_and_link_directory []
        [(["p"], Node.symlink ⟨true, ["p"]⟩)]
        ⟨true, ["p"]⟩ ⟨true, ["p"]⟩ false =
      (Except.ok (), [(["p"], Node.symlink ⟨true, ["p"]⟩)]) :=
  rfl

/-- C5.  Idempotence: if one alignment run succeeds, running it again with
the same inputs returns success with the identical filesystem — the second
run fires only the early already-aligned check and performs no mutation. -/
theorem C5_idempotent {locked : List Path} {fs fs1 : FS}
    {orig storage : RawPath} {skip : Bool}
    (h : migrate_and_link_directory locked fs orig storage skip =
      (Except.ok (), fs1)) :
    migrate_and_link_directory locked fs1 orig storage skip =
      (Except.ok (), fs1) := by
  rcases migrate_ok h with ⟨hearly, rfl⟩ | ⟨hlook, hres⟩
  · simp [migrate_and_link_directory, migrateMain, hearly]
  · have hidem :
        normSegs (normSegs (normalize_path storage)) = normalize_path storage := by
      unfold finalLinkResolve at hres
      rw [hlook] at hres
      simpa using hres
    have hearly1 :
        earlyAlignedF fs1 (normalize_path orig) (normalize_path storage) = true := by
      unfold earlyAlignedF
      rw [hlook]
      simpa [normalize_path] using hidem
    simp [migrate_and_link_directory, migrateMain, hearly1]

/-- C5 witness: a concrete successful migration of `/a` (holding one 5-byte
file) to a fresh `/b`, rerun on its own output. -/
theorem C5_idempotent_witness :
    migrate_and_link_directory []
        [(["a"], Node.dir), (["a","f"], Node.file 5)]
        ⟨true, ["a"]⟩ ⟨true, ["b"]⟩ false =
      (Except.ok (),
        [(["a"], Node.symlink ⟨true, ["b"]⟩), (["b","f"], Node.file 5),
         (["b"], Node.dir)]) ∧
    migrate_and_link_directory []
        [(["a"], Node.symlink ⟨true, ["b"]⟩), (["b","f"], Node.file 5),
         (["b"], Node.dir)]
        ⟨true, ["a"]⟩ ⟨true, ["b"]⟩ false =
      (Except.ok (),
        [(["a"], Node.symlink ⟨true, ["b"]⟩), (["b","f"], Node.file 5),
         (["b"], Node.dir)]) :=
  ⟨rfl,
    @C5_idempotent [] [(["a"], Node.dir), (["a","f"], Node.file 5)]
      [(["a"], Node.symlink ⟨true, ["b"]⟩), (["b","f"], Node.file 5),
       (["b"], Node.dir)]
      ⟨true, ["a"]⟩ ⟨true, ["b"]⟩ false rfl⟩

/-- C6 amended.  For every run that completes successfully *other than via
the early already-aligned return*, the live path afterwards holds a symlink
whose stored target is the absolute normalized storage path, and resolving
the stored target as the claim prescribes (relative targets against the
link's own parent directory) yields exactly the normalized storage path.
The early-return carve-out is forced by the counterexample: that check
resolves a relative stored target against the working directory instead of
the link's parent, so it can accept a pre-existing link whose parent-based
resolution differs. -/
theorem C6_amended {locked : List Path} {fs fs1 : FS}
    {orig storage : RawPath} {skip : Bool}
    (h : migrate_and_link_directory locked fs orig storage skip =
      (Except.ok (), fs1))
    (hne : earlyAlignedF fs (normalize_path orig) (normalize_path storage) =
      false) :
    lookupFS fs1 (normalize_path orig) =
        some (Node.symlink ⟨true, normSegs (normalize_path storage)⟩) ∧
      finalLinkResolve fs1 (normalize_path orig) =
        some (normalize_path storage) := by
  rcases migrate_ok h with ⟨hearly, -⟩ | hmain
  · rw [hearly] at hne; cases hne
  · exact hmain

/-- C6 witness: the concrete migration of `/a` to `/b`; the early check does
not fire, and the created link resolves to `/b`. -/
theorem C6_amended_witness :
    lookupFS
        [(["a"], Node.symlink ⟨true, ["b"]⟩), (["b","f"], Node.file 5),
         (["b"], Node.dir)] ["a"] =
      some (Node.symlink ⟨true, ["b"]⟩) ∧
    finalLinkResolve
        [(["a"], Node.symlink ⟨true, ["b"]⟩), (["b","f"], Node.file 5),
         (["b"], Node.dir)] ["a"] = some ["b"] :=
  @C6_amended [] [(["a"], Node.dir), (["a","f"], Node.file 5)]
    [(["a"], Node.symlink ⟨true, ["b"]⟩), (["b","f"], Node.file 5),
     (["b"], Node.dir)]
    ⟨true, ["a"]⟩ ⟨true, ["b"]⟩ false rfl rfl

/-- C8 amended.  If the normalized live path equals the normalized storage
path, the run raises `ValueError` (`InvalidRequest`) with the filesystem
untouched — *unless* the live path is a symlink whose cleaned absolute
target equals the storage path, in which case the earlier already-aligned
check returns success first (the carve-out forced by the counterexample). -/
theorem C8_amended {locked : List Path} {fs : FS} {orig storage : RawPath}
    {skip : Bool}
    (heq : normalize_path orig = normalize_path storage)
    (hne : earlyAlignedF fs (normalize_path orig) (normalize_path storage) =
      false) :
    migrate_and_link_directory locked fs orig storage skip =
      (Except.error MErr.samePath, fs) := by
  rw [heq] at hne
  simp [migrate_and_link_directory, migrateMain, hne, heq]

/-- C8 witness: live path and storage path both `/p`, which holds a plain
file (so the early check cannot fire); the run raises `ValueError`. -/
theorem C8_amended_witness :
    migrate_and_link_directory [] [(["p"], Node.file 1)]
        ⟨true, ["p"]⟩ ⟨true, ["p"]⟩ false =
      (Except.error MErr.samePath, [(["p"], Node.file 1)]) :=
  C8_amended rfl rfl

/-! ### Walk-entry accounting -/

theorem dirEntries_partition (fs : FS) (d : Path) :
    (dirsOf fs d).length + (filesOf fs d).length = (dirEntries fs d).length := by
  have h : (dirEntries fs d).length =
      ((dirEntries fs d).filter (fun p => isdirF fs p)).length +
        ((dirEntries fs d).filter (fun p => !(isdirF fs p))).length :=
    List.length_eq_length_filter_add _
  unfold dirsOf filesOf
  omega

theorem itemsCountF_eq_walkEntries_length (fs : FS) (top : Path) :
    itemsCountF fs top = (walkEntries fs top).length := by
  unfold itemsCountF walkEntries List.flatMap
  rw [List.length_flatten, List.map_map]
  congr 1
  apply List.map_congr_left
  intro d _
  exact dirEntries_partition fs d

theorem walkedDirs_nodup {fs : FS} {top : Path}
    (h : (fs.map Prod.fst).Nodup) : (walkedDirs fs top).Nodup := by
  unfold walkedDirs
  refine List.Nodup.cons ?_ (h.filter _)
  intro hmem
  have hc := List.of_mem_filter hmem
  simp [reachUnder] at hc

theorem dirEntries_nodup (fs : FS) (d : Path) : (dirEntries fs d).Nodup := by
  unfold dirEntries
  refine (childrenNames_nodup fs d).map ?_
  intro a b hab
  simpa using List.append_cancel_left hab

theorem walkEntries_nodup {fs : FS} {top : Path}
    (h : (fs.map Prod.fst).Nodup) : (walkEntries fs top).Nodup := by
  unfold walkEntries
  rw [List.nodup_flatMap]
  refine ⟨fun d _ => dirEntries_nodup fs d, ?_⟩
  refine List.Pairwise.imp ?_ (walkedDirs_nodup h)
  intro a b hne p hpa hpb
  rcases List.mem_map.mp hpa with ⟨n1, _, hn1⟩
  rcases List.mem_map.mp hpb with ⟨n2, _, hn2⟩
  exact hne (by simpa using congrArg List.dropLast (hn1.trans hn2.symm))

theorem statF_symlink_file {fs : FS} {p : Path} {t : RawPath} {sz : Nat}
    (hpne : p ≠ []) (hp : lookupFS fs p = some (Node.symlink t))
    (htne : resolveTarget p t ≠ [])
    (ht : lookupFS fs (resolveTarget p t) = some (Node.file sz)) :
    statF fs p = some (resolveTarget p t, Node.file sz) := by
  unfold statF FUEL resolveFollow
  simp [resolveFollow, hpne, hp, htne, ht]

/-- C9 counterexample.  The claim says `validate` counts each symlink as one
item and does not include the size of the link's target in the byte total.
Concretely: the source tree `/src` contains exactly one entry, the symlink
`s` whose target is the 5-byte file `/t` lying outside the tree, and the
destination tree `/dst` contains exactly one real 5-byte file.  The
source-side byte total is 5 — the symlink's target size was followed and
counted (`os.path.getsize` follows links) — so validation passes against a
tree holding a real 5-byte file. -/
theorem C9_counterexample :
    sizeSumF
        [(["src"], Node.dir), (["src","s"], Node.symlink ⟨true, ["t"]⟩),
         (["t"], Node.file 5), (["dst"], Node.dir), (["dst","f"], Node.file 5)]
        ["src"] = 5 ∧
    itemsCountF
        [(["src"], Node.dir), (["src","s"], Node.symlink ⟨true, ["t"]⟩),
         (["t"], Node.file 5), (["dst"], Node.dir), (["dst","f"], Node.file 5)]
        ["src"] = 1 ∧
    validate_copy_basic
        [(["src"], Node.dir), (["src","s"], Node.symlink ⟨true, ["t"]⟩),
         (["t"], Node.file 5), (["dst"], Node.dir), (["dst","f"], Node.file 5)]
        ["src"] ["dst"] = true :=
  ⟨rfl, rfl, rfl⟩

/-- C9 (amended).  `validate_copy_basic` does count every symlink
encountered by the walk as exactly one item: the item count is the length
of the duplicate-free list of all walk entries, and a symlink inside a
walked directory is one such entry, listed in the `files` component.
Contrary to the original claim, however, the byte total does not ignore the
link's target: `os.path.getsize` follows symlinks, so a symlink whose
target resolves to a regular file of size `sz` contributes `sz` to the byte
total (a broken link contributes zero). -/
theorem C9_amended {fs : FS} {top p : Path} {t : RawPath} {sz : Nat}
    (hWF : WFfs fs)
    (hp : lookupFS fs p = some (Node.symlink t))
    (hreach : dirname p ∈ walkedDirs fs top)
    (ht : lookupFS fs (resolveTarget p t) = some (Node.file sz)) :
    itemsCountF fs top = (walkEntries fs top).length ∧
    (walkEntries fs top).Nodup ∧
    p ∈ walkEntries fs top ∧
    p ∈ filesOf fs (dirname p) ∧
    getsizeF fs p = sz := by
  have hpne : p ≠ [] := hWF.key_ne_nil hp
  have htne : resolveTarget p t ≠ [] := hWF.key_ne_nil ht
  have hstat := statF_symlink_file hpne hp htne ht
  have hsplit : dirname p ++ [p.getLast hpne] = p := by
    unfold dirname
    exact List.dropLast_concat_getLast hpne
  have hdent : p ∈ dirEntries fs (dirname p) := by
    unfold dirEntries
    exact List.mem_map.mpr
      ⟨p.getLast hpne,
        mem_childrenNames_of_lookup (by rw [hsplit]; exact hp), hsplit⟩
  refine ⟨itemsCountF_eq_walkEntries_length fs top, walkEntries_nodup hWF.1,
    ?_, ?_, ?_⟩
  · unfold walkEntries
    exact List.mem_flatMap.mpr ⟨dirname p, hreach, hdent⟩
  · unfold filesOf
    refine List.mem_filter.mpr ⟨hdent, ?_⟩
    simp [isdirF, hstat]
  · simp [getsizeF, hstat]

/-- C9 witness: in the tree `/src` holding the single symlink `s` whose
target is the 5-byte file `/t`, the symlink is one walk entry (item count
1) and its `getsize` is the target's 5 bytes. -/
theorem C9_amended_witness :
    itemsCountF
        [(["src"], Node.dir), (["src","s"], Node.symlink ⟨true, ["t"]⟩),
         (["t"], Node.file 5)] ["src"] =
      (walkEntries
        [(["src"], Node.dir), (["src","s"], Node.symlink ⟨true, ["t"]⟩),
         (["t"], Node.file 5)] ["src"]).length ∧
    (walkEntries
        [(["src"], Node.dir), (["src","s"], Node.symlink ⟨true, ["t"]⟩),
         (["t"], Node.file 5)] ["src"]).Nodup ∧
    ["src","s"] ∈ walkEntries
        [(["src"], Node.dir), (["src","s"], Node.symlink ⟨true, ["t"]⟩),
         (["t"], Node.file 5)] ["src"] ∧
    ["src","s"] ∈ filesOf
        [(["src"], Node.dir), (["src","s"], Node.symlink ⟨true, ["t"]⟩),
         (["t"], Node.file 5)] (dirname ["src","s"]) ∧
    getsizeF
        [(["src"], Node.dir), (["src","s"], Node.symlink ⟨true, ["t"]⟩),
         (["t"], Node.file 5)] ["src","s"] = 5 :=
  @C9_amended
    [(["src"], Node.dir), (["src","s"], Node.symlink ⟨true, ["t"]⟩),
     (["t"], Node.file 5)]
    ["src"] ["src","s"] ⟨true, ["t"]⟩ 5
    (WFfs_of_all (by decide) (by decide)) rfl (by decide) rfl

/-- C3.  Data priority: if the storage path already exists as a directory
(content A) and the live path is an ordinary directory with unrelated
content B (unrelated = neither path is a prefix of the other), the run
succeeds; afterwards the storage path's subtree is exactly what it was
(content A, with B discarded and never merged into it) and the live path is
a symlink whose stored target is the absolute normalized storage path. -/
theorem C3_data_priority {locked : List Path} {fs : FS}
    {orig storage : RawPath} {skip : Bool}
    (hWF : WFfs fs)
    (hno : lookupFS fs (normalize_path orig) = some Node.dir)
    (hns : lookupFS fs (normalize_path storage) = some Node.dir)
    (hnn1 : ¬ (normalize_path orig) <+: (normalize_path storage))
    (hnn2 : ¬ (normalize_path storage) <+: (normalize_path orig)) :
    migrate_and_link_directory locked fs orig storage skip =
      (Except.ok (),
        insertFS (eraseTreeFS fs (normalize_path orig)) (normalize_path orig)
          (Node.symlink ⟨true, normSegs (normalize_path storage)⟩)) ∧
    lookupFS
        (insertFS (eraseTreeFS fs (normalize_path orig)) (normalize_path orig)
          (Node.symlink ⟨true, normSegs (normalize_path storage)⟩))
        (normalize_path orig) =
      some (Node.symlink ⟨true, normSegs (normalize_path storage)⟩) ∧
    ∀ q, (normalize_path storage) <+: q →
      lookupFS
          (insertFS (eraseTreeFS fs (normalize_path orig)) (normalize_path orig)
            (Node.symlink ⟨true, normSegs (normalize_path storage)⟩)) q =
        lookupFS fs q := by
  refine ⟨migrateMain_storage_wins hWF hno hns hnn1
      (normSegs_idem storage.segs), lookupFS_insert_self _ _ _, fun q hq => ?_⟩
  have hqno : q ≠ normalize_path orig := by
    intro hqe
    exact hnn2 (hqe ▸ hq)
  rw [lookupFS_insert_ne _ _ _ _ hqno]
  refine lookupFS_eraseTree_not_under fs _ q ?_
  intro hpre
  rcases List.prefix_or_prefix_of_prefix hpre hq with hc | hc
  · exact hnn1 hc
  · exact hnn2 hc

/-- C3 witness: live `/a` (with a 5-byte file) and pre-existing storage
`/b` holding the 9-byte file `x`; the run succeeds, `/b/x` is untouched,
and `/a` becomes a symlink to `/b`. -/
theorem C3_data_priority_witness :
    migrate_and_link_directory []
        [(["a"], Node.dir), (["a","f"], Node.file 5), (["b"], Node.dir),
         (["b","x"], Node.file 9)]
        ⟨true, ["a"]⟩ ⟨true, ["b"]⟩ false =
      (Except.ok (),
        [(["a"], Node.symlink ⟨true, ["b"]⟩), (["b"], Node.dir),
         (["b","x"], Node.file 9)]) ∧
    lookupFS
        [(["a"], Node.symlink ⟨true, ["b"]⟩), (["b"], Node.dir),
         (["b","x"], Node.file 9)] ["b","x"] =
      lookupFS
        [(["a"], Node.dir), (["a","f"], Node.file 5), (["b"], Node.dir),
         (["b","x"], Node.file 9)] ["b","x"] :=
  ⟨(@C3_data_priority []
      [(["a"], Node.dir), (["a","f"], Node.file 5), (["b"], Node.dir),
       (["b","x"], Node.file 9)]
      ⟨true, ["a"]⟩ ⟨true, ["b"]⟩ false
      (WFfs_of_all (by decide) (by decide)) rfl rfl (by decide) (by decide)).1,
    (@C3_data_priority []
      [(["a"], Node.dir), (["a","f"], Node.file 5), (["b"], Node.dir),
       (["b","x"], Node.file 9)]
      ⟨true, ["a"]⟩ ⟨true, ["b"]⟩ false
      (WFfs_of_all (by decide) (by decide)) rfl rfl (by decide) (by decide)).2.2
      ["b","x"] (by decide)⟩

/-- C2.  Partial-copy safety: when the live path is an ordinary directory,
the storage path does not yet exist (its parent chain consisting of real
directories), the two paths are unrelated, and at least one top-level
regular file of the source is locked by another process, the run aborts
with the partial-copy error whose list names each locked file, the
directory node at the live path is untouched (not deleted), and every
unlocked top-level regular file was still copied to the storage path — the
walk continued past the failed items. -/
theorem C2_partial_copy_safety {locked : List Path} {fs : FS}
    {orig storage : RawPath} {skip : Bool}
    (hWF : WFfs fs)
    (hno : lookupFS fs (normalize_path orig) = some Node.dir)
    (hns : lookupFS fs (normalize_path storage) = none)
    (hnse : normalize_path storage ≠ [])
    (hchain : ∀ q, q ≠ [] → q <+: normalize_path storage →
      q ≠ normalize_path storage → lookupFS fs q = some Node.dir)
    (hnn1 : ¬ (normalize_path orig) <+: (normalize_path storage))
    (hlocked : ∃ name sz,
      lookupFS fs (normalize_path orig ++ [name]) = some (Node.file sz) ∧
        (normalize_path orig ++ [name]) ∈ locked) :
    ∃ L fsE,
      migrate_and_link_directory locked fs orig storage skip =
        (Except.error (MErr.partialCopy L), fsE) ∧
      lookupFS fsE (normalize_path orig) = some Node.dir ∧
      (∀ name sz,
        lookupFS fs (normalize_path orig ++ [name]) = some (Node.file sz) →
        (normalize_path orig ++ [name]) ∉ locked →
        lookupFS fsE (normalize_path storage ++ [name]) = some (Node.file sz)) ∧
      (∀ name sz,
        lookupFS fs (normalize_path orig ++ [name]) = some (Node.file sz) →
        (normalize_path orig ++ [name]) ∈ locked →
        (normalize_path orig ++ [name]) ∈ L) := by
  have hnoe : normalize_path orig ≠ [] := hWF.key_ne_nil hno
  have hne : ¬ normalize_path orig = normalize_path storage := by
    intro h
    rw [h, hns] at hno
    cases hno
  have hnn2 : ¬ (normalize_path storage) <+: (normalize_path orig) := by
    intro hpre
    have := hWF.dir_of_strict hno hnse hpre (fun h => hne h.symm)
    rw [hns] at this
    cases this
  have hearly : earlyAlignedF fs (normalize_path orig) (normalize_path storage) =
      false := by
    unfold earlyAlignedF
    rw [hno]
  have hnp1 : create_parent_dirs fs (normalize_path storage) = (true, fs) := by
    apply create_parent_dirs_noop
    by_cases hd : dirname (normalize_path storage) = []
    · exact Or.inl hd
    · refine Or.inr (existsF_of_dir (hchain _ hd (List.dropLast_prefix _) ?_))
      intro he
      have h0 : (normalize_path storage).length ≠ 0 := by simpa using hnse
      have h1 := congrArg List.length he
      simp only [dirname, List.length_dropLast] at h1
      omega
  have hnp2 : create_parent_dirs fs (normalize_path orig) = (true, fs) :=
    create_parent_dirs_noop (hWF.parent_ok hno)
  have hexns : existsF fs (normalize_path storage) = false :=
    existsF_of_none hns hnse
  have hdno : isdirF fs (normalize_path orig) = true := isdirF_of_dir hno
  have hmk : makedirsF fs (normalize_path storage) =
      (true, insertFS fs (normalize_path storage) Node.dir) :=
    makedirsF_fresh hnse hchain hns
  have hfsd : insertFS fs (normalize_path storage) Node.dir =
      (normalize_path storage, Node.dir) :: fs := by
    unfold insertFS
    rw [eraseFS_of_none hns]
  have hnsno : ∀ name : Seg, ¬ normalize_path storage = normalize_path orig ++ [name] := by
    intro name h
    apply hnn1
    rw [h]
    exact List.prefix_append _ _
  have hlooksrc : ∀ name : Seg,
      lookupFS ((normalize_path storage, Node.dir) :: fs)
        (normalize_path orig ++ [name]) =
      lookupFS fs (normalize_path orig ++ [name]) :=
    fun name => lookupFS_cons_ne (hnsno name)
  have hCH : childrenNames ((normalize_path storage, Node.dir) :: fs)
      (normalize_path orig) = childrenNames fs (normalize_path orig) := by
    refine childrenNames_cons_other ?_
    rintro ⟨h1, -⟩
    exact hnn1 (h1 ▸ List.dropLast_prefix (normalize_path storage))
  have hdstnone : ∀ name ∈ childrenNames fs (normalize_path orig),
      lookupFS ((normalize_path storage, Node.dir) :: fs)
        (normalize_path storage ++ [name]) = none := by
    intro name _
    rw [lookupFS_cons_ne (by intro h; have := congrArg List.length h; simp at this)]
    cases hl : lookupFS fs (normalize_path storage ++ [name]) with
    | none => rfl
    | some n' =>
      have := hWF.parent_dir_of_child hl hnse
      rw [hns] at this
      cases this
  have hfold := copyFold_spec locked hnn1 hnn2 (childrenNames fs (normalize_path orig))
    ((normalize_path storage, Node.dir) :: fs, [])
    (childrenNames_nodup fs (normalize_path orig)) hdstnone
  have hloop : copyLoop locked (normalize_path orig) (normalize_path storage)
      ((normalize_path storage, Node.dir) :: fs) =
      (true,
        ((childrenNames fs (normalize_path orig)).foldl
          (copyItem locked (normalize_path orig) (normalize_path storage))
          ((normalize_path storage, Node.dir) :: fs, [])).1,
        ((childrenNames fs (normalize_path orig)).foldl
          (copyItem locked (normalize_path orig) (normalize_path storage))
          ((normalize_path storage, Node.dir) :: fs, [])).2) := by
    unfold copyLoop
    rw [hCH]
  have hrobust : copy_directory_contents_robust locked fs
      (normalize_path orig) (normalize_path storage) =
      (true,
        ((childrenNames fs (normalize_path orig)).foldl
          (copyItem locked (normalize_path orig) (normalize_path storage))
          ((normalize_path storage, Node.dir) :: fs, [])).1,
        ((childrenNames fs (normalize_path orig)).foldl
          (copyItem locked (normalize_path orig) (normalize_path storage))
          ((normalize_path storage, Node.dir) :: fs, [])).2) := by
    unfold copy_directory_contents_robust
    rw [if_neg (by rw [hexns]; exact Bool.false_ne_true), hmk]
    dsimp only
    rw [hfsd]
    exact hloop
  -- the failed list is nonempty: the locked witness lands in it
  obtain ⟨name0, sz0, hf0, hl0⟩ := hlocked
  have hmem0 : name0 ∈ childrenNames fs (normalize_path orig) :=
    mem_childrenNames_of_lookup hf0
  have hin0 : (normalize_path orig ++ [name0]) ∈
      ((childrenNames fs (normalize_path orig)).foldl
        (copyItem locked (normalize_path orig) (normalize_path storage))
        ((normalize_path storage, Node.dir) :: fs, [])).2 :=
    hfold.2 name0 hmem0 sz0 (by rw [hlooksrc name0]; exact hf0) hl0
  refine ⟨((childrenNames fs (normalize_path orig)).foldl
      (copyItem locked (normalize_path orig) (normalize_path storage))
      ((normalize_path storage, Node.dir) :: fs, [])).2,
    ((childrenNames fs (normalize_path orig)).foldl
      (copyItem locked (normalize_path orig) (normalize_path storage))
      ((normalize_path storage, Node.dir) :: fs, [])).1, ?_, ?_, ?_, ?_⟩
  · -- the run evaluates to the partial-copy abort
    unfold migrate_and_link_directory migrateMain
    rw [if_neg (by rw [hearly]; exact Bool.false_ne_true), if_neg hne, hnp1]
    dsimp only
    rw [hnp2]
    dsimp only
    rw [if_neg (by rw [hexns]; simp)]
    rw [if_pos (by rw [hdno, hexns]; rfl)]
    unfold migrateCopyPhase
    rw [hrobust]
    dsimp only
    rw [if_neg (List.ne_nil_of_mem hin0)]
  · -- the live-path directory node is untouched
    refine copyFold_preserves_some locked _ _ _ _ _ Node.dir ?_ ?_
    · rw [lookupFS_cons_ne (by intro h; exact hne h.symm)]
      exact hno
    · intro name' _ hpre
      exact hnn2 ((List.prefix_append _ [name']).trans hpre)
  · -- unlocked top-level files were copied
    intro name sz hf hnl
    exact hfold.1 name (mem_childrenNames_of_lookup hf) sz
      (by rw [hlooksrc name]; exact hf) hnl
  · -- locked top-level files are all named in the failed list
    intro name sz hf hl
    exact hfold.2 name (mem_childrenNames_of_lookup hf) sz
      (by rw [hlooksrc name]; exact hf) hl

/-- C2 witness: `/a` holds the locked 5-byte file `f` and the unlocked
7-byte file `g`; migrating to the fresh `/b` aborts with the partial-copy
error naming `/a/f`, leaves `/a` in place, and `/b/g` holds the copy of
`g`. -/
theorem C2_partial_copy_safety_witness :
    (∃ L fsE,
      migrate_and_link_directory [["a","f"]]
          [(["a"], Node.dir), (["a","f"], Node.file 5), (["a","g"], Node.file 7)]
          ⟨true, ["a"]⟩ ⟨true, ["b"]⟩ false =
        (Except.error (MErr.partialCopy L), fsE) ∧
      lookupFS fsE ["a"] = some Node.dir ∧
      (∀ name sz,
        lookupFS [(["a"], Node.dir), (["a","f"], Node.file 5),
          (["a","g"], Node.file 7)] (["a"] ++ [name]) = some (Node.file sz) →
        (["a"] ++ [name]) ∉ [[("a" : Seg),"f"]] →
        lookupFS fsE (["b"] ++ [name]) = some (Node.file sz)) ∧
      (∀ name sz,
        lookupFS [(["a"], Node.dir), (["a","f"], Node.file 5),
          (["a","g"], Node.file 7)] (["a"] ++ [name]) = some (Node.file sz) →
        (["a"] ++ [name]) ∈ [[("a" : Seg),"f"]] →
        (["a"] ++ [name]) ∈ L)) :=
  @C2_partial_copy_safety [["a","f"]]
    [(["a"], Node.dir), (["a","f"], Node.file 5), (["a","g"], Node.file 7)]
    ⟨true, ["a"]⟩ ⟨true, ["b"]⟩ false
    (WFfs_of_all (by decide) (by decide)) rfl rfl (by decide)
    (by
      intro q hq hpre hne
      exfalso
      rcases List.prefix_cons_iff.mp hpre with h | ⟨t, ht, htp⟩
      · exact hq h
      · rcases List.prefix_nil.mp htp with rfl
        exact hne (ht.trans rfl))
    (by decide)
    ⟨"f", 5, rfl, by decide⟩

/-- C1 amended.  Whenever the copy-then-delete run aborts with a copy
failure, a partial-copy failure, or a validation mismatch, the filesystem
node stored at the live path is exactly what it was before the run: the
original is never deleted after a copy failure or a validation mismatch.
(The claim's unconditional "always copies and validates before deleting" is
cut down by the counterexample: when the storage path already exists, the
code deletes the original without any copy; the protective gate proved here
applies to the runs in which the copy phase actually runs.) -/
theorem C1_amended {locked : List Path} {fs fsE : FS}
    {orig storage : RawPath} {skip : Bool} {e : MErr}
    (hWF : WFfs fs)
    (h : migrate_and_link_directory locked fs orig storage skip =
      (Except.error e, fsE))
    (he : copyErr e) :
    lookupFS fsE (normalize_path orig) =
      lookupFS fs (normalize_path orig) :=
  migrate_copy_errors_preserve hWF h he

/-- C1 witness: a migration of `/a` whose file `f` is locked aborts with a
partial-copy failure, and the directory node at `/a` is untouched. -/
theorem C1_amended_witness :
    lookupFS
        [(["b","g"], Node.file 7), (["b"], Node.dir), (["a"], Node.dir),
         (["a","f"], Node.file 5), (["a","g"], Node.file 7)] ["a"] =
      lookupFS
        [(["a"], Node.dir), (["a","f"], Node.file 5), (["a","g"], Node.file 7)]
        ["a"] :=
  @C1_amended [["a","f"]]
    [(["a"], Node.dir), (["a","f"], Node.file 5), (["a","g"], Node.file 7)]
    [(["b","g"], Node.file 7), (["b"], Node.dir), (["a"], Node.dir),
     (["a","f"], Node.file 5), (["a","g"], Node.file 7)]
    ⟨true, ["a"]⟩ ⟨true, ["b"]⟩ false (MErr.partialCopy [["a","f"]])
    (WFfs_of_all (by decide) (by decide))
    rfl (Or.inr (Or.inl ⟨[["a","f"]], rfl⟩))

/-- C10.  With the skip-validation flag set: (a) a run that aborts because
`copyTree` reported failed items still leaves the node at the live path
untouched — the failed-items gate blocks deletion regardless of the flag;
and (b) no run with the flag can abort with a validation mismatch — the
flag bypasses exactly the item-count/byte-size validation step. -/
theorem C10_skip_validation_gate {locked : List Path} {fs : FS}
    {orig storage : RawPath} (hWF : WFfs fs) :
    (∀ (L : List Path) (fsE : FS),
        migrate_and_link_directory locked fs orig storage true =
          (Except.error (MErr.partialCopy L), fsE) →
        lookupFS fsE (normalize_path orig) =
          lookupFS fs (normalize_path orig)) ∧
      (∀ fsE : FS,
        migrate_and_link_directory locked fs orig storage true ≠
          (Except.error MErr.validationMismatch, fsE)) :=
  ⟨fun L _ h =>
      migrate_copy_errors_preserve hWF h (Or.inr (Or.inl ⟨L, rfl⟩)),
    fun _ => migrate_skip_no_validation⟩

/-- C10 witness: the locked-file migration run with the skip-validation
flag; it aborts with the partial-copy error, `/a` is untouched, and it did
not abort with a validation mismatch. -/
theorem C10_skip_validation_gate_witness :
    lookupFS
        [(["b","g"], Node.file 7), (["b"], Node.dir), (["a"], Node.dir),
         (["a","f"], Node.file 5), (["a","g"], Node.file 7)] ["a"] =
      lookupFS
        [(["a"], Node.dir), (["a","f"], Node.file 5), (["a","g"], Node.file 7)]
        ["a"] ∧
    migrate_and_link_directory [["a","f"]]
        [(["a"], Node.dir), (["a","f"], Node.file 5), (["a","g"], Node.file 7)]
        ⟨true, ["a"]⟩ ⟨true, ["b"]⟩ true ≠
      (Except.error MErr.validationMismatch,
        [(["b","g"], Node.file 7), (["b"], Node.dir), (["a"], Node.dir),
         (["a","f"], Node.file 5), (["a","g"], Node.file 7)]) :=
  ⟨(@C10_skip_validation_gate [["a","f"]]
      [(["a"], Node.dir), (["a","f"], Node.file 5), (["a","g"], Node.file 7)]
      ⟨true, ["a"]⟩ ⟨true, ["b"]⟩
      (WFfs_of_all (by decide) (by decide))).1 [["a","f"]]
      [(["b","g"], Node.file 7), (["b"], Node.dir), (["a"], Node.dir),
       (["a","f"], Node.file 5), (["a","g"], Node.file 7)] rfl,
    (@C10_skip_validation_gate [["a","f"]]
      [(["a"], Node.dir), (["a","f"], Node.file 5), (["a","g"], Node.file 7)]
      ⟨true, ["a"]⟩ ⟨true, ["b"]⟩
      (WFfs_of_all (by decide) (by decide))).2
      [(["b","g"], Node.file 7), (["b"], Node.dir), (["a"], Node.dir),
       (["a","f"], Node.file 5), (["a","g"], Node.file 7)]⟩

/-- C4 amended.  If the storage path exists as a plain file, the live path
differs from it, and the live path is not a symlink the early check accepts
(the carve-out forced by the counterexample), then — provided creating the
live path's missing parent directories succeeds — the run fails with
`FileExistsError` (`ConflictError`); the nodes at the live and storage paths
themselves are untouched, and the only filesystem changes before the
failure are fresh directories created on the live path's parent chain. -/
theorem C4_amended {locked : List Path} {fs : FS} {orig storage : RawPath}
    {skip : Bool} {sz : Nat}
    (hWF : WFfs fs)
    (hfile : lookupFS fs (normalize_path storage) = some (Node.file sz))
    (hne : ¬ normalize_path orig = normalize_path storage)
    (hearly : earlyAlignedF fs (normalize_path orig) (normalize_path storage) =
      false)
    (hpar : (create_parent_dirs fs (normalize_path orig)).1 = true) :
    migrate_and_link_directory locked fs orig storage skip =
        (Except.error MErr.storageNotDir,
          (create_parent_dirs fs (normalize_path orig)).2) ∧
      lookupFS (create_parent_dirs fs (normalize_path orig)).2
          (normalize_path orig) = lookupFS fs (normalize_path orig) ∧
      lookupFS (create_parent_dirs fs (normalize_path orig)).2
          (normalize_path storage) = some (Node.file sz) ∧
      ∀ q, lookupFS (create_parent_dirs fs (normalize_path orig)).2 q ≠
          lookupFS fs q →
        lookupFS fs q = none ∧
          lookupFS (create_parent_dirs fs (normalize_path orig)).2 q =
            some Node.dir := by
  have hnsne : normalize_path storage ≠ [] := hWF.key_ne_nil hfile
  have hnoop : create_parent_dirs fs (normalize_path storage) = (true, fs) := by
    apply create_parent_dirs_noop
    by_cases hd : dirname (normalize_path storage) = []
    · exact Or.inl hd
    · refine Or.inr (existsF_of_dir (hWF.dir_of_strict hfile hd ?_ ?_))
      · exact List.dropLast_prefix _
      · intro hq
        have h1 := congrArg List.length hq
        have h2 : (normalize_path storage).length ≠ 0 := by simpa using hnsne
        simp only [dirname, List.length_dropLast] at h1
        omega
  have hfile2 : lookupFS (create_parent_dirs fs (normalize_path orig)).2
      (normalize_path storage) = some (Node.file sz) :=
    create_parent_dirs_preserves_some (normalize_path orig) hfile
  refine ⟨?_, create_parent_dirs_preserves_self fs (normalize_path orig),
    hfile2, fun q hq => ⟨(create_parent_dirs_changes hq).2.2.1,
      (create_parent_dirs_changes hq).2.2.2⟩⟩
  unfold migrate_and_link_directory migrateMain
  rw [hearly]
  simp only [Bool.false_eq_true, if_false, if_neg hne, hnoop]
  cases hcp : create_parent_dirs fs (normalize_path orig) with
  | mk b fs2 =>
    rw [hcp] at hpar
    simp only at hpar
    subst hpar
    have hfs2 : lookupFS fs2 (normalize_path storage) = some (Node.file sz) := by
      rw [hcp] at hfile2
      exact hfile2
    have hcond : (existsF fs2 (normalize_path storage) &&
        !isdirF fs2 (normalize_path storage)) = true := by
      rw [show existsF fs2 (normalize_path storage) = true from by
          simp [existsF, statF_of_file hfs2 hnsne],
        show isdirF fs2 (normalize_path storage) = false from by
          simp [isdirF, statF_of_file hfs2 hnsne]]
      rfl
    dsimp only
    rw [if_pos hcond]

/-- C4 witness: storage path `/s` is a 3-byte file, live path `/d/l` does
not exist and its parent `/d` is missing; the run fails with
`FileExistsError` after creating only the fresh directory `/d`. -/
theorem C4_amended_witness :
    migrate_and_link_directory [] [(["s"], Node.file 3)]
        ⟨true, ["d","l"]⟩ ⟨true, ["s"]⟩ false =
      (Except.error MErr.storageNotDir,
        [(["d"], Node.dir), (["s"], Node.file 3)]) ∧
    lookupFS [(["d"], Node.dir), (["s"], Node.file 3)] ["d","l"] =
      lookupFS [(["s"], Node.file 3)] ["d","l"] :=
  ⟨(@C4_amended [] [(["s"], Node.file 3)] ⟨true, ["d","l"]⟩ ⟨true, ["s"]⟩
      false 3 (WFfs_of_all (by decide) (by decide)) rfl (by decide) rfl rfl).1,
    (@C4_amended [] [(["s"], Node.file 3)] ⟨true, ["d","l"]⟩ ⟨true, ["s"]⟩
      false 3 (WFfs_of_all (by decide) (by decide)) rfl (by decide) rfl rfl).2.1⟩

end Mklink
